import Mathlib

/-! Frame clock and viewport controller of `src/lib/game.js`.

A shallow embedding of the class `Game` (constructor, `init`, `run` with its
inner `loop`, and the static `updateView`) together with the properties of the
frame clock, the start-up path and the camera.

Modelling conventions.

* JavaScript numbers are IEEE binary64 values, embedded as the rationals they
  denote.  The frame clock rounds the result of every arithmetic operation to
  binary64 (`fl`, round to nearest, ties to even), as the source does; its
  statements depend on that rounding.  The camera arithmetic of `updateView`
  is embedded without rounding.  Infinities, NaN and overflow are not
  represented.
* Mutable objects (`this`, `data`, `viewport`) become records that every
  operation takes and returns.
* The collaborators imported by `game.js` (`input`, `animation`, `movement`,
  `physics`, `render`) are parameters of the model, bundled in `Stages`.
* Calls that matter for ordering (`*.update`, `Game.updateView`,
  `window.requestAnimationFrame`) are recorded, with the timestamp of the
  tick that made them, in a call log carried by the state.
-/

namespace SuperJihadoo

/-! ## World state -/

/-- The object literal `viewport` built in `init` (`width`, `height`, `vX`, `vY`). -/
structure Viewport where
  width : ℚ
  height : ℚ
  vX : ℚ
  vY : ℚ
  deriving DecidableEq

/-- Modelled from the spec: the entity classes (`Mario`, `Goomba`, `Koopa`,
`Score`) live in `./entities/*`, outside `src/`; an entity is represented by
its position and size, the attributes `game.js` passes to the constructors and
reads back in `updateView`. -/
structure Entity where
  xPos : ℚ
  yPos : ℚ
  width : ℚ
  height : ℚ
  deriving DecidableEq

/-- Modelled from the spec: the class `Score` lives in `./entities/score`,
outside `src/`; `game.js` constructs it from a position only. -/
structure Score where
  xPos : ℚ
  yPos : ℚ
  deriving DecidableEq

/-- The object `data.entities`, filled in by the sprite-sheet load handler. -/
structure Entities where
  mario : Entity
  score : Score
  coins : List Entity
  mushrooms : List Entity
  goombas : List Entity
  koopas : List Entity
  deriving DecidableEq

/-- The world state `data` handed to every pipeline stage.  Handles to host
objects (canvas, images, sounds, the map builder, the reset callback) carry no
data that `game.js` computes with and are not represented. -/
structure Data where
  viewport : Viewport
  animationFrame : ℕ
  entities : Entities
  userControl : Bool
  deriving DecidableEq

/-! ## Viewport controller -/

/-- The static method `Game.updateView(data)` (game.js 175-188).  The source
also computes `center.y`, which it never reads. -/
def Game.updateView (data : Data) : Data :=
  let viewport := data.viewport
  let margin := viewport.width / 6
  let centerX := data.entities.mario.xPos + data.entities.mario.width * (1 / 2)
  if centerX < viewport.vX + margin * 2 then
    { data with viewport := { viewport with vX := max (centerX - margin) 0 } }
  else if centerX > (viewport.vX + viewport.width) - margin * 2 then
    { data with viewport :=
        { viewport with vX := min ((centerX + margin) - viewport.width) (3400 - viewport.width) } }
  else
    data

/-- The camera algorithm as the specification words it (section 4.6): the new
`vX` from the viewport width, the current `vX` and the player's position and
width, with `levelWidth = 3400`. -/
def cameraSpec (viewportWidth vX playerX playerWidth : ℚ) : ℚ :=
  let margin := viewportWidth / 6
  let center := playerX + playerWidth / 2
  if center < vX + 2 * margin then max (center - margin) 0
  else if center > vX + viewportWidth - 2 * margin then
    min (center + margin - viewportWidth) (3400 - viewportWidth)
  else vX

/-- A world state with the given viewport offset and player box; everything
else as `init` builds it. -/
def sampleData (vX xPos width : ℚ) : Data :=
  { viewport := { width := 760, height := 600, vX := vX, vY := 0 }
    animationFrame := 0
    entities :=
      { mario := { xPos := xPos, yPos := 0, width := width, height := 40 }
        score := { xPos := 270, yPos := 15 }
        coins := [], mushrooms := [], goombas := [], koopas := [] }
    userControl := true }


/-! ## Binary64 arithmetic -/

/-- Rounding to the nearest integer, ties to the even one. -/
def roundHalfEven (x : ℚ) : ℤ :=
  if x - ⌊x⌋ < 1 / 2 then ⌊x⌋
  else if 1 / 2 < x - ⌊x⌋ then ⌊x⌋ + 1
  else if ⌊x⌋ % 2 = 0 then ⌊x⌋ else ⌊x⌋ + 1

/-- Rounding of a positive number to 53 significant bits: with
`2^e ≤ x < 2^(e+1)` the result is the multiple of `2^(e−52)` nearest to `x`,
ties to the even multiple. -/
def flAbs (x : ℚ) : ℚ :=
  (roundHalfEven (x / 2 ^ (Int.log 2 x - 52)) : ℚ) * 2 ^ (Int.log 2 x - 52)

/-- The binary64 value of a real result (round to nearest, ties to even, sign
and magnitude).  The exponent range is unbounded: overflow is not represented,
and a sum or difference of two doubles that falls in the subnormal range is
exact in binary64 and here alike. -/
def fl (x : ℚ) : ℚ :=
  if x = 0 then 0 else if 0 < x then flAbs x else -flAbs (-x)

/-! ## Frame clock -/

/-- The instance fields of `Game`; `muted` is undefined until `init` assigns it. -/
structure Game where
  gameLoopRunning : Bool
  audioStarted : Bool
  lastFrameTime : ℚ
  targetFPS : ℚ
  frameInterval : ℚ
  muted : Option Bool
  deriving DecidableEq

/-- The constructor of `Game` (game.js 20-26); `1000 / this.targetFPS` is the
double nearest to `1000/60`. -/
def Game.constructor : Game :=
  { gameLoopRunning := false
    audioStarted := false
    lastFrameTime := 0
    targetFPS := 60
    frameInterval := fl (1000 / 60)
    muted := none }

/-- The calls whose order and number the frame clock fixes. -/
inductive Call where
  | inputInit
  | renderInit
  | inputUpdate
  | animationUpdate
  | movementUpdate
  | physicsUpdate
  | updateView
  | renderUpdate
  | requestAnimationFrame
  deriving DecidableEq

/-- The `update` functions of the imported collaborators (`./util/input`,
`./util/animation`, `./util/movement`, `./util/physics`, `./util/render`),
which are outside `src/`: each receives the world state and may change it;
whatever else a collaborator reads (captured keys) is fixed with the parameter. -/
structure Stages where
  inputUpdate : Data → Data
  animationUpdate : Data → Data
  movementUpdate : Data → Data
  physicsUpdate : Data → Data
  renderUpdate : Data → Data

/-- Stages that leave the world state alone, for concrete evaluations. -/
def idleStages : Stages :=
  { inputUpdate := id, animationUpdate := id, movementUpdate := id,
    physicsUpdate := id, renderUpdate := id }

/-- The six stages in the order `loop` calls them. -/
def pipeline (st : Stages) (d : Data) : Data :=
  st.renderUpdate (Game.updateView (st.physicsUpdate (st.movementUpdate
    (st.animationUpdate (st.inputUpdate d)))))

/-- No collaborator stage writes the global frame counter. -/
def Stages.keepFrameCounter (st : Stages) : Prop :=
  (∀ d, (st.inputUpdate d).animationFrame = d.animationFrame) ∧
  (∀ d, (st.animationUpdate d).animationFrame = d.animationFrame) ∧
  (∀ d, (st.movementUpdate d).animationFrame = d.animationFrame) ∧
  (∀ d, (st.physicsUpdate d).animationFrame = d.animationFrame) ∧
  (∀ d, (st.renderUpdate d).animationFrame = d.animationFrame)

/-- The JavaScript remainder `a % b`: `a − b·trunc(a/b)`, the quotient
truncated toward zero.  On doubles the remainder is exact (it is always
representable), so no rounding is applied. -/
def jsRem (a b : ℚ) : ℚ :=
  a - b * (if 0 ≤ a / b then ⌊a / b⌋ else ⌈a / b⌉)

/-- What one frame loop works on: the `Game` instance (`this`), the world
state captured by the closure, and the log of the calls made so far, each with
the timestamp of the tick that made it. -/
structure LoopState where
  game : Game
  data : Data
  calls : List (ℚ × Call)

/-- The closure `loop` inside `run` (game.js 149-168): one refresh callback
with timestamp `currentTime`.  Both subtractions round to binary64. -/
def Game.loop (st : Stages) (s : LoopState) (currentTime : ℚ) : LoopState :=
  let elapsed := fl (currentTime - s.game.lastFrameTime)
  let s1 : LoopState :=
    if elapsed ≥ s.game.frameInterval then
      let this :=
        { s.game with
          lastFrameTime := fl (currentTime - jsRem elapsed s.game.frameInterval) }
      let d1 := st.inputUpdate s.data
      let d2 := st.animationUpdate d1
      let d3 := st.movementUpdate d2
      let d4 := st.physicsUpdate d3
      let d5 := Game.updateView d4
      let d6 := st.renderUpdate d5
      { game := this
        data := { d6 with animationFrame := d6.animationFrame + 1 }
        calls := s.calls ++
          [(currentTime, Call.inputUpdate), (currentTime, Call.animationUpdate),
           (currentTime, Call.movementUpdate), (currentTime, Call.physicsUpdate),
           (currentTime, Call.updateView), (currentTime, Call.renderUpdate)] }
    else s
  { s1 with calls := s1.calls ++ [(currentTime, Call.requestAnimationFrame)] }

/-- The method `run(data)` (game.js 146-172); `now` is the value returned by
`performance.now()`.  The log of the new loop starts empty. -/
def Game.run (st : Stages) (this : Game) (data : Data) (now : ℚ) : LoopState :=
  let this1 := { this with gameLoopRunning := true }
  let this2 := { this1 with lastFrameTime := now }
  Game.loop st { game := this2, data := data, calls := [] } this2.lastFrameTime

/-- The refresh callbacks that follow, one per timestamp, in order. -/
def ticks (st : Stages) (s : LoopState) (ts : List ℚ) : LoopState :=
  ts.foldl (Game.loop st) s

/-- The timestamps of the ticks on which the pipeline executed, oldest first,
read off the call log. -/
def execTimes (s : LoopState) : List ℚ :=
  (s.calls.filter (fun c => decide (c.2 = Call.updateView))).map Prod.fst

/-- The invariant of a loop started at `t0 ≥ 0` with interval `F`, fed with
nondecreasing doubles up to `T`, the latest of them `p`.  With `L` the current
`lastFrameTime` and `E` the executing timestamps: `0 ≤ L ≤ p`; `L` is within
`|E|·T/2^52` of a grid point `t0 + K·F` with `K ≥ |E|`; `L` is within one
rounded interval below the latest executing timestamp; every earlier executing
timestamp is below `L + 3T/2^53`; and two executing timestamps with another
one between them are more than `F − (3T + F)/2^53` apart. -/
def ClockInv (t0 F T : ℚ) (s : LoopState) (p : ℚ) : Prop :=
  s.game.frameInterval = F ∧
  (0 ≤ s.game.lastFrameTime ∧ s.game.lastFrameTime ≤ p) ∧
  (∃ K : ℕ, (execTimes s).length ≤ K ∧
    |s.game.lastFrameTime - (t0 + K * F)| ≤ (execTimes s).length * (T / 2 ^ 52)) ∧
  (∀ a ∈ (execTimes s).getLast?,
    fl (a - F) ≤ s.game.lastFrameTime ∧ s.game.lastFrameTime ≤ a ∧
    a - F - T / 2 ^ 53 < s.game.lastFrameTime) ∧
  (∀ (i : ℕ) (a : ℚ), (execTimes s)[i]? = some a → i + 1 < (execTimes s).length →
    a - 3 * (T / 2 ^ 53) < s.game.lastFrameTime) ∧
  (∀ (i j : ℕ) (a b : ℚ), (execTimes s)[i]? = some a → (execTimes s)[j]? = some b →
    i + 2 ≤ j → F - (3 * T + F) / 2 ^ 53 < b - a)

/-! ## Start-up -/

/-- The three images `init` creates (game.js 91-98), each with the flag
"has signalled `load`". -/
structure Assets where
  spriteSheet : Bool
  marioSprite : Bool
  tileset : Bool
  deriving DecidableEq

inductive AssetKind where
  | spriteSheet
  | marioSprite
  | tileset
  deriving DecidableEq

def Assets.loaded (a : Assets) : AssetKind → Bool
  | AssetKind.spriteSheet => a.spriteSheet
  | AssetKind.marioSprite => a.marioSprite
  | AssetKind.tileset => a.tileset

def Assets.markLoaded (a : Assets) : AssetKind → Assets
  | AssetKind.spriteSheet => { a with spriteSheet := true }
  | AssetKind.marioSprite => { a with marioSprite := true }
  | AssetKind.tileset => { a with tileset := true }

/-- The part of `levelOne` (`./map/level_1-1`, outside `src/`) that `init`
reads: the placement tuples `[x, y, width, height]` of the enemies. -/
structure Level where
  koopas : List (ℚ × ℚ × ℚ × ℚ)
  goombas : List (ℚ × ℚ × ℚ × ℚ)

/-- The page the script runs in, as far as `game.js` reads or writes it: the
one `Game` instance, `window.IS_MOBILE_BLOCKED`, the accumulated scale of the
canvas context, the listeners registered by `init`, the image triples created
by the calls of `init` (each sprite sheet carries the load handler), the world
states that have a frame loop attached, and the log of calls. -/
structure Page where
  game : Game
  mobileBlocked : Bool
  ctxScale : ℚ
  interactionListeners : ℕ
  muteListeners : ℕ
  assets : List Assets
  loops : List Data
  calls : List (ℚ × Call)

/-- The page when the script starts: `const game = new Game()`. -/
def Page.fresh (mobileBlocked : Bool) : Page :=
  { game := Game.constructor
    mobileBlocked := mobileBlocked
    ctxScale := 1
    interactionListeners := 0
    muteListeners := 0
    assets := []
    loops := []
    calls := [] }

/-- The method `init()` up to the registration of the load handler
(game.js 28-100); the two `console.warn` calls leave no state behind. -/
def Game.init (p : Page) : Page :=
  if p.mobileBlocked then p
  else if p.game.gameLoopRunning then p
  else
    { p with
      ctxScale := p.ctxScale * 3
      interactionListeners := p.interactionListeners + 3
      game := { p.game with muted := some false }
      muteListeners := p.muteListeners + 1
      assets := p.assets ++ [{ spriteSheet := false, marioSprite := false, tileset := false }] }

/-- The world state the load handler builds (game.js 101-139). -/
def initialData (lvl : Level) : Data :=
  { viewport := { width := 760, height := 600, vX := 0, vY := 0 }
    animationFrame := 0
    entities :=
      { mario := { xPos := 175, yPos := 0, width := 30, height := 40 }
        score := { xPos := 270, yPos := 15 }
        coins := []
        mushrooms := []
        goombas := lvl.goombas.map
          (fun g => { xPos := g.1, yPos := g.2.1, width := g.2.2.1, height := g.2.2.2 })
        koopas := lvl.koopas.map
          (fun k => { xPos := k.1, yPos := k.2.1, width := k.2.2.1, height := k.2.2.2 }) }
    userControl := true }

/-- A call `this.run(data)` seen from the page: the instance is updated, the
new loop is attached to `data`, and its calls are appended to the log. -/
def Page.run (st : Stages) (p : Page) (data : Data) (now : ℚ) : Page :=
  let r := Game.run st p.game data now
  { p with game := r.game, loops := p.loops ++ [r.data], calls := p.calls ++ r.calls }

/-- The `load` handler of the sprite sheet (game.js 100-143).  `input.init`
and `render.init` wire host-side handlers; they are logged and the world state
passes through them as built. -/
def spriteSheetLoad (st : Stages) (lvl : Level) (p : Page) (now : ℚ) : Page :=
  let data := initialData lvl
  Page.run st
    { p with calls := p.calls ++ [(now, Call.inputInit), (now, Call.renderInit)] } data now

/-- What the browser does to the page after `init`: image `a` of the `i`-th
triple signals `load` at time `now`. -/
inductive Event where
  | load (i : ℕ) (a : AssetKind) (now : ℚ)

/-- One event.  An image signals `load` once (its `src` is assigned once), so
a repeated signal is ignored; only the sprite sheet has a handler. -/
def Page.step (st : Stages) (lvl : Level) (p : Page) : Event → Page
  | Event.load i a now =>
    match p.assets.get? i with
    | none => p
    | some as =>
      if as.loaded a then p
      else
        let p1 := { p with assets := p.assets.set i (as.markLoaded a) }
        match a with
        | AssetKind.spriteSheet => spriteSheetLoad st lvl p1 now
        | _ => p1

/-- The page after the script has run (`game.init()`, game.js 195-196) and the
given events have happened. -/
def Page.after (st : Stages) (lvl : Level) (mobileBlocked : Bool) (evs : List Event) : Page :=
  evs.foldl (Page.step st lvl) (Game.init (Page.fresh mobileBlocked))

/-- A level with one enemy of each kind, for concrete evaluations. -/
def sampleLevel : Level :=
  { koopas := [(500, 100, 16, 24)], goombas := [(300, 120, 16, 16)] }

/-! ## Viewport controller: properties -/

theorem updateView_eq (d : Data) :
    Game.updateView d =
      { d with viewport := { d.viewport with
          vX := cameraSpec d.viewport.width d.viewport.vX d.entities.mario.xPos
            d.entities.mario.width } } := by
  unfold Game.updateView cameraSpec
  have e1 : d.entities.mario.xPos + d.entities.mario.width * (1 / 2)
      = d.entities.mario.xPos + d.entities.mario.width / 2 := by ring
  have e2 : d.viewport.width / 6 * 2 = 2 * (d.viewport.width / 6) := by ring
  simp only [e1, e2]
  split_ifs <;> rfl

theorem updateView_animationFrame (d : Data) :
    (Game.updateView d).animationFrame = d.animationFrame := by
  rw [updateView_eq]

theorem cameraSpec_idem (w v x pw : ℚ) (hw : 0 < w) :
    cameraSpec w (cameraSpec w v x pw) x pw = cameraSpec w v x pw := by
  unfold cameraSpec
  generalize x + pw / 2 = c
  simp only
  by_cases ha : c < v + 2 * (w / 6)
  · rw [if_pos ha]
    have hb : c < max (c - w / 6) 0 + 2 * (w / 6) := by
      have := le_max_left (c - w / 6) (0 : ℚ)
      linarith
    rw [if_pos hb]
  · rw [if_neg ha]
    by_cases hb : c > v + w - 2 * (w / 6)
    · rw [if_pos hb]
      have hc : ¬ c < min (c + w / 6 - w) (3400 - w) + 2 * (w / 6) := by
        have := min_le_left (c + w / 6 - w) (3400 - w)
        intro h
        linarith
      have hd : c > min (c + w / 6 - w) (3400 - w) + w - 2 * (w / 6) := by
        have := min_le_left (c + w / 6 - w) (3400 - w)
        linarith
      rw [if_neg hc, if_pos hd]
    · rw [if_neg hb, if_neg ha, if_neg hb]

/-- C1 (evaluation at the failing input): with viewport width 760 and
`vX = 2640 = 3400 − 760`, a player at `xPos = 2765` of width 30 (centre 2780)
takes the left branch of `Game.updateView`, which only clamps at 0, and the
viewport ends at `vX = 7960/3 > 2640`.  Symmetrically, from `vX = 0` a player
with centre 510 takes the right branch, which only clamps at `3400 − width`,
and the viewport ends at `vX = −370/3 < 0`. -/
theorem updateView_leaves_level_bounds :
    (sampleData 2640 2765 30).viewport.width = 760 ∧
    0 ≤ (sampleData 2640 2765 30).viewport.vX ∧
    (sampleData 2640 2765 30).viewport.vX ≤ 3400 - 760 ∧
    (Game.updateView (sampleData 2640 2765 30)).viewport.vX = 7960 / 3 ∧
    ¬ (Game.updateView (sampleData 2640 2765 30)).viewport.vX ≤ 3400 - 760 ∧
    (Game.updateView (sampleData 0 495 30)).viewport.vX = -370 / 3 ∧
    ¬ 0 ≤ (Game.updateView (sampleData 0 495 30)).viewport.vX := by
  refine ⟨rfl, ?_, ?_, ?_, ?_, ?_, ?_⟩
  · simp [sampleData]
  · simp [sampleData]; norm_num
  · simp [Game.updateView, sampleData]; norm_num
  · simp [Game.updateView, sampleData]; norm_num
  · simp [Game.updateView, sampleData]; norm_num
  · simp [Game.updateView, sampleData]; norm_num

/-- C2: `Game.updateView` is the documented camera algorithm and touches
nothing else: the result is the input world state with only `viewport.vX`
replaced by `cameraSpec` (margin = width/6, centre = xPos + width/2; left
branch `max (centre − margin) 0`, right branch
`min (centre + margin − width) (3400 − width)`, dead zone unchanged); and for
width 760, `vX = 0`, centre 700 the new `vX` is `200/3`. -/
theorem updateView_eq_cameraSpec (d : Data) :
    Game.updateView d =
      { d with viewport := { d.viewport with
          vX := cameraSpec d.viewport.width d.viewport.vX d.entities.mario.xPos
            d.entities.mario.width } } ∧
    (Game.updateView d).viewport.vY = d.viewport.vY ∧
    (Game.updateView d).viewport.width = d.viewport.width ∧
    (Game.updateView d).viewport.height = d.viewport.height ∧
    (Game.updateView d).entities = d.entities ∧
    (Game.updateView d).animationFrame = d.animationFrame ∧
    (Game.updateView d).userControl = d.userControl ∧
    (sampleData 0 685 30).entities.mario.xPos + (sampleData 0 685 30).entities.mario.width / 2
      = 700 ∧
    (Game.updateView (sampleData 0 685 30)).viewport.vX = 200 / 3 := by
  refine ⟨updateView_eq d, ?_, ?_, ?_, ?_, ?_, ?_, ?_, ?_⟩
  · rw [updateView_eq]
  · rw [updateView_eq]
  · rw [updateView_eq]
  · rw [updateView_eq]
  · rw [updateView_eq]
  · rw [updateView_eq]
  · simp [sampleData]; norm_num
  · simp [Game.updateView, sampleData]
    norm_num

/-- C9: with viewport width 760, for every prior `vX` and every player whose
horizontal centre `c = xPos + width/2` lies in `[0, 3400]`, the viewport after
`Game.updateView` contains the centre: `vX ≤ c ≤ vX + viewport.width`. -/
theorem updateView_player_in_window (d : Data) (hw : d.viewport.width = 760)
    (h0 : 0 ≤ d.entities.mario.xPos + d.entities.mario.width / 2)
    (h1 : d.entities.mario.xPos + d.entities.mario.width / 2 ≤ 3400) :
    (Game.updateView d).viewport.vX ≤ d.entities.mario.xPos + d.entities.mario.width / 2 ∧
    d.entities.mario.xPos + d.entities.mario.width / 2
      ≤ (Game.updateView d).viewport.vX + (Game.updateView d).viewport.width := by
  rw [updateView_eq]
  simp only [cameraSpec, hw]
  generalize d.entities.mario.xPos + d.entities.mario.width / 2 = c at h0 h1 ⊢
  generalize d.viewport.vX = v
  split_ifs with ha hb
  · refine ⟨max_le (by linarith) h0, ?_⟩
    have := le_max_left (c - 760 / 6) (0 : ℚ)
    linarith
  · refine ⟨le_trans (min_le_left _ _) (by linarith), ?_⟩
    rcases min_choice (c + 760 / 6 - 760) ((3400 : ℚ) - 760) with h | h <;> rw [h] <;> linarith
  · constructor <;> linarith

theorem updateView_player_in_window_witness :
    (sampleData 0 685 30).viewport.width = 760 ∧
    (Game.updateView (sampleData 0 685 30)).viewport.vX
      ≤ (sampleData 0 685 30).entities.mario.xPos
        + (sampleData 0 685 30).entities.mario.width / 2 ∧
    (sampleData 0 685 30).entities.mario.xPos + (sampleData 0 685 30).entities.mario.width / 2
      ≤ (Game.updateView (sampleData 0 685 30)).viewport.vX
        + (Game.updateView (sampleData 0 685 30)).viewport.width :=
  ⟨rfl, updateView_player_in_window (sampleData 0 685 30) rfl
    (by simp [sampleData]; norm_num) (by simp [sampleData]; norm_num)⟩

/-- C10: `Game.updateView` is idempotent for a stationary player: for every
viewport of positive width, every prior `vX` and every player position,
applying it twice gives the same world state (in particular the same `vX`) as
applying it once. -/
theorem updateView_idempotent (d : Data) (hw : 0 < d.viewport.width) :
    Game.updateView (Game.updateView d) = Game.updateView d ∧
    (Game.updateView (Game.updateView d)).viewport.vX = (Game.updateView d).viewport.vX := by
  have key : Game.updateView (Game.updateView d) = Game.updateView d := by
    rw [updateView_eq (Game.updateView d), updateView_eq d]
    simp only
    rw [cameraSpec_idem _ _ _ _ hw]
  exact ⟨key, by rw [key]⟩

theorem updateView_idempotent_witness :
    0 < (sampleData 0 685 30).viewport.width ∧
    Game.updateView (Game.updateView (sampleData 0 685 30))
      = Game.updateView (sampleData 0 685 30) ∧
    (Game.updateView (Game.updateView (sampleData 0 685 30))).viewport.vX
      = (Game.updateView (sampleData 0 685 30)).viewport.vX :=
  ⟨by simp [sampleData], updateView_idempotent (sampleData 0 685 30) (by simp [sampleData])⟩

/-! ## Binary64 arithmetic: properties of the rounding -/

theorem roundHalfEven_sub_le (x : ℚ) : |(roundHalfEven x : ℚ) - x| ≤ 1 / 2 := by
  have h1 := Int.floor_le x
  have h2 := Int.lt_floor_add_one x
  unfold roundHalfEven
  rw [abs_le]
  split_ifs with ha hb hc
  · constructor <;> linarith
  · push_cast; constructor <;> linarith
  · constructor <;> linarith
  · push_cast; constructor <;> linarith

theorem roundHalfEven_eq (x : ℚ) (n : ℤ) (h : |x - n| < 1 / 2) : roundHalfEven x = n := by
  have hx := roundHalfEven_sub_le x
  rw [abs_lt] at h
  rw [abs_le] at hx
  have h1 : ((roundHalfEven x - n : ℤ) : ℚ) < 1 := by push_cast; linarith
  have h2 : (-1 : ℚ) < ((roundHalfEven x - n : ℤ) : ℚ) := by push_cast; linarith
  have h3 : roundHalfEven x - n < 1 := by exact_mod_cast h1
  have h4 : -1 < roundHalfEven x - n := by exact_mod_cast h2
  omega

theorem roundHalfEven_mono {x y : ℚ} (h : x ≤ y) : roundHalfEven x ≤ roundHalfEven y := by
  by_contra hc
  push_neg at hc
  have hx := roundHalfEven_sub_le x
  have hy := roundHalfEven_sub_le y
  rw [abs_le] at hx hy
  have h1 : (roundHalfEven y : ℚ) + 1 ≤ roundHalfEven x := by exact_mod_cast hc
  have hxy : x = y := by linarith
  rw [hxy] at hc
  exact lt_irrefl _ hc

theorem roundHalfEven_intCast (n : ℤ) : roundHalfEven (n : ℚ) = n :=
  roundHalfEven_eq _ n (by simp)

theorem two_zpow_pos (e : ℤ) : (0 : ℚ) < 2 ^ e := zpow_pos (by norm_num) e

theorem flAbs_of_log (x : ℚ) (e n : ℤ) (hx : 0 < x) (h1 : (2 : ℚ) ^ e ≤ x)
    (h2 : x < 2 ^ (e + 1)) (hr : roundHalfEven (x / 2 ^ (e - 52)) = n) :
    flAbs x = n * 2 ^ (e - 52) := by
  have hlog : Int.log 2 x = e := by
    have ha : e ≤ Int.log 2 x := by
      rw [← Int.zpow_le_iff_le_log (by norm_num) hx]
      exact_mod_cast h1
    have hb : Int.log 2 x < e + 1 := by
      rw [← Int.lt_zpow_iff_log_lt (by norm_num) hx]
      exact_mod_cast h2
    omega
  unfold flAbs
  rw [hlog, hr]

theorem fl_of_pos (x : ℚ) (hx : 0 < x) : fl x = flAbs x := by
  unfold fl
  rw [if_neg hx.ne.symm, if_pos hx]

theorem fl_zero : fl 0 = 0 := by simp [fl]

theorem fl_neg (x : ℚ) : fl (-x) = -fl x := by
  unfold fl
  rcases lt_trichotomy x 0 with h | h | h
  · have h1 : ¬ (0 < x) := not_lt.mpr h.le
    simp [h.ne, h1, h]
  · simp [h]
  · have h1 : ¬ (x < 0) := not_lt.mpr h.le
    simp [h.ne.symm, h1, h]

/-- The significand of a positive number lies in `[2^52, 2^53)`. -/
theorem scaled_bounds (x : ℚ) (hx : 0 < x) :
    (2 : ℚ) ^ (52 : ℕ) ≤ x / 2 ^ (Int.log 2 x - 52) ∧
    x / 2 ^ (Int.log 2 x - 52) < 2 ^ (53 : ℕ) := by
  have h1 : (2 : ℚ) ^ Int.log 2 x ≤ x := by
    have := Int.zpow_log_le_self (b := 2) (by norm_num) hx
    exact_mod_cast this
  have h2 : x < (2 : ℚ) ^ (Int.log 2 x + 1) := by
    have := Int.lt_zpow_succ_log_self (b := 2) (by norm_num) x
    exact_mod_cast this
  have hq := two_zpow_pos (Int.log 2 x - 52)
  have e1 : (2 : ℚ) ^ Int.log 2 x = 2 ^ (52 : ℕ) * 2 ^ (Int.log 2 x - 52) := by
    rw [← zpow_natCast, ← zpow_add₀ (by norm_num)]
    congr 1
    push_cast
    ring
  have e2 : (2 : ℚ) ^ (Int.log 2 x + 1) = 2 ^ (53 : ℕ) * 2 ^ (Int.log 2 x - 52) := by
    rw [← zpow_natCast, ← zpow_add₀ (by norm_num)]
    congr 1
    push_cast
    ring
  constructor
  · rw [le_div_iff₀ hq, ← e1]; exact h1
  · rw [div_lt_iff₀ hq, ← e2]; exact h2

theorem flAbs_error (x : ℚ) (hx : 0 < x) : |flAbs x - x| ≤ x / 2 ^ 53 := by
  have hq := two_zpow_pos (Int.log 2 x - 52)
  have hb := (scaled_bounds x hx).1
  have hr := roundHalfEven_sub_le (x / 2 ^ (Int.log 2 x - 52))
  unfold flAbs
  set q : ℚ := 2 ^ (Int.log 2 x - 52) with hqdef
  set y : ℚ := x / q with hy
  have hxy : x = y * q := by rw [hy]; field_simp
  have e : (roundHalfEven y : ℚ) * q - x = ((roundHalfEven y : ℚ) - y) * q := by
    rw [hxy]; ring_nf
  rw [e, abs_mul, abs_of_pos hq]
  have h1 : |(roundHalfEven y : ℚ) - y| * q ≤ 1 / 2 * q :=
    mul_le_mul_of_nonneg_right hr hq.le
  have h2 : (2 : ℚ) ^ (52 : ℕ) * q ≤ x := by
    rw [hxy]
    exact mul_le_mul_of_nonneg_right hb hq.le
  have h3 : 1 / 2 * q ≤ x / 2 ^ 53 := by
    rw [le_div_iff₀ (by positivity)]
    have : (2 : ℚ) ^ 53 = 2 * 2 ^ (52 : ℕ) := by norm_num
    rw [this]
    linarith
  exact le_trans h1 h3

theorem flAbs_lower (x : ℚ) (hx : 0 < x) : (2 : ℚ) ^ Int.log 2 x ≤ flAbs x := by
  have hq := two_zpow_pos (Int.log 2 x - 52)
  have hb := (scaled_bounds x hx).1
  have h1 : ((2 ^ 52 : ℤ) : ℚ) ≤ x / 2 ^ (Int.log 2 x - 52) := by push_cast; exact hb
  have h2 : roundHalfEven ((2 ^ 52 : ℤ) : ℚ) ≤ roundHalfEven (x / 2 ^ (Int.log 2 x - 52)) :=
    roundHalfEven_mono h1
  rw [roundHalfEven_intCast] at h2
  have h3 : ((2 ^ 52 : ℤ) : ℚ) ≤ (roundHalfEven (x / 2 ^ (Int.log 2 x - 52)) : ℚ) := by
    exact_mod_cast h2
  unfold flAbs
  have e1 : (2 : ℚ) ^ Int.log 2 x = 2 ^ (52 : ℕ) * 2 ^ (Int.log 2 x - 52) := by
    rw [← zpow_natCast, ← zpow_add₀ (by norm_num)]
    congr 1
    push_cast
    ring
  rw [e1]
  push_cast at h3
  exact mul_le_mul_of_nonneg_right h3 hq.le

theorem flAbs_upper (x : ℚ) (hx : 0 < x) : flAbs x ≤ (2 : ℚ) ^ (Int.log 2 x + 1) := by
  have hq := two_zpow_pos (Int.log 2 x - 52)
  have hb := (scaled_bounds x hx).2
  have h1 : x / 2 ^ (Int.log 2 x - 52) ≤ ((2 ^ 53 : ℤ) : ℚ) := by push_cast; exact hb.le
  have h2 : roundHalfEven (x / 2 ^ (Int.log 2 x - 52)) ≤ roundHalfEven ((2 ^ 53 : ℤ) : ℚ) :=
    roundHalfEven_mono h1
  rw [roundHalfEven_intCast] at h2
  have h3 : (roundHalfEven (x / 2 ^ (Int.log 2 x - 52)) : ℚ) ≤ ((2 ^ 53 : ℤ) : ℚ) := by
    exact_mod_cast h2
  unfold flAbs
  have e2 : (2 : ℚ) ^ (Int.log 2 x + 1) = 2 ^ (53 : ℕ) * 2 ^ (Int.log 2 x - 52) := by
    rw [← zpow_natCast, ← zpow_add₀ (by norm_num)]
    congr 1
    push_cast
    ring
  rw [e2]
  push_cast at h3
  exact mul_le_mul_of_nonneg_right h3 hq.le

theorem flAbs_pos (x : ℚ) (hx : 0 < x) : 0 < flAbs x :=
  lt_of_lt_of_le (two_zpow_pos _) (flAbs_lower x hx)

theorem flAbs_mono {x y : ℚ} (hx : 0 < x) (h : x ≤ y) : flAbs x ≤ flAbs y := by
  have hy : 0 < y := lt_of_lt_of_le hx h
  have hlog : Int.log 2 x ≤ Int.log 2 y := Int.log_mono_right hx h
  rcases eq_or_lt_of_le hlog with he | hlt
  · unfold flAbs
    rw [he]
    have hq := two_zpow_pos (Int.log 2 y - 52)
    have h1 : x / 2 ^ (Int.log 2 y - 52) ≤ y / 2 ^ (Int.log 2 y - 52) :=
      div_le_div_of_nonneg_right h hq.le
    have h2 := roundHalfEven_mono h1
    have h3 : (roundHalfEven (x / 2 ^ (Int.log 2 y - 52)) : ℚ)
        ≤ (roundHalfEven (y / 2 ^ (Int.log 2 y - 52)) : ℚ) := by exact_mod_cast h2
    exact mul_le_mul_of_nonneg_right h3 hq.le
  · have h1 := flAbs_upper x hx
    have h2 := flAbs_lower y hy
    have h3 : (2 : ℚ) ^ (Int.log 2 x + 1) ≤ 2 ^ Int.log 2 y :=
      zpow_le_zpow_right₀ (by norm_num) (by omega)
    linarith

theorem fl_mono {x y : ℚ} (h : x ≤ y) : fl x ≤ fl y := by
  rcases lt_trichotomy x 0 with hx | hx | hx
  · have hnx : 0 < -x := by linarith
    have e1 : fl x = -flAbs (-x) := by
      have := fl_of_pos (-x) hnx
      rw [fl_neg] at this
      linarith
    rcases lt_trichotomy y 0 with hy | hy | hy
    · have hny : 0 < -y := by linarith
      have e2 : fl y = -flAbs (-y) := by
        have := fl_of_pos (-y) hny
        rw [fl_neg] at this
        linarith
      rw [e1, e2]
      have := flAbs_mono hny (by linarith : -y ≤ -x)
      linarith
    · rw [hy, fl_zero, e1]
      have := flAbs_pos (-x) hnx
      linarith
    · rw [e1, fl_of_pos y hy]
      have := flAbs_pos (-x) hnx
      have := flAbs_pos y hy
      linarith
  · rw [hx, fl_zero]
    rcases eq_or_lt_of_le (hx ▸ h) with hy | hy
    · rw [← hy, fl_zero]
    · rw [fl_of_pos y hy]
      exact (flAbs_pos y hy).le
  · have hy : 0 < y := lt_of_lt_of_le hx h
    rw [fl_of_pos x hx, fl_of_pos y hy]
    exact flAbs_mono hx h

theorem fl_error (x : ℚ) : |fl x - x| ≤ |x| / 2 ^ 53 := by
  rcases lt_trichotomy x 0 with hx | hx | hx
  · have hnx : 0 < -x := by linarith
    have e1 : fl x = -flAbs (-x) := by
      have := fl_of_pos (-x) hnx
      rw [fl_neg] at this
      linarith
    have := flAbs_error (-x) hnx
    rw [e1, abs_of_neg hx]
    have e2 : -flAbs (-x) - x = -(flAbs (-x) - -x) := by ring
    rw [e2, abs_neg]
    exact this
  · rw [hx, fl_zero]; simp
  · rw [fl_of_pos x hx, abs_of_pos hx]
    exact flAbs_error x hx

theorem fl_nonneg {x : ℚ} (h : 0 ≤ x) : 0 ≤ fl x := by
  have := fl_mono h
  rwa [fl_zero] at this

theorem fl_pos {x : ℚ} (h : 0 < x) : 0 < fl x := by
  rw [fl_of_pos x h]
  exact flAbs_pos x h

theorem fl_eval (x : ℚ) (e n : ℤ) (hx : 0 < x) (h1 : (2 : ℚ) ^ e ≤ x)
    (h2 : x < 2 ^ (e + 1)) (h3 : |x / 2 ^ (e - 52) - n| < 1 / 2) :
    fl x = n * 2 ^ (e - 52) := by
  rw [fl_of_pos x hx]
  exact flAbs_of_log x e n hx h1 h2 (roundHalfEven_eq _ n h3)

theorem fl_of_double (x : ℚ) (e n : ℤ) (hx : 0 < x) (h1 : (2 : ℚ) ^ e ≤ x)
    (h2 : x < 2 ^ (e + 1)) (h3 : x = n * 2 ^ (e - 52)) : fl x = x := by
  have hq := two_zpow_pos (e - 52)
  rw [fl_eval x e n hx h1 h2]
  · exact h3.symm
  · have : x / 2 ^ (e - 52) = n := by
      rw [div_eq_iff hq.ne.symm]
      exact h3
    rw [this]
    simp

/-- The interval of the constructor: the double `16.666666666666668`. -/
theorem constructor_frameInterval :
    Game.constructor.frameInterval = 4691249611844267 / 2 ^ 48 := by
  show fl (1000 / 60) = 4691249611844267 / 2 ^ 48
  rw [fl_eval (1000 / 60) 4 4691249611844267 (by norm_num) (by norm_num) (by norm_num)
    (by rw [abs_lt]; constructor <;> norm_num)]
  norm_num

theorem constructor_frameInterval_pos : 0 < Game.constructor.frameInterval := by
  rw [constructor_frameInterval]
  norm_num

/-! ## Frame clock: one tick -/

theorem jsRem_of_nonneg (a b : ℚ) (hb : 0 < b) (ha : 0 ≤ a) :
    jsRem a b = a - b * ⌊a / b⌋ := by
  unfold jsRem
  rw [if_pos (div_nonneg ha hb.le)]

theorem jsRem_nonneg (a b : ℚ) (hb : 0 < b) (ha : 0 ≤ a) : 0 ≤ jsRem a b := by
  rw [jsRem_of_nonneg a b hb ha]
  have h := Int.floor_le (a / b)
  have h2 : b * (⌊a / b⌋ : ℚ) ≤ b * (a / b) := mul_le_mul_of_nonneg_left h hb.le
  rw [mul_div_cancel₀ a hb.ne.symm] at h2
  linarith

theorem jsRem_lt (a b : ℚ) (hb : 0 < b) (ha : 0 ≤ a) : jsRem a b < b := by
  rw [jsRem_of_nonneg a b hb ha]
  have h := Int.lt_floor_add_one (a / b)
  have h2 : b * (a / b) < b * ((⌊a / b⌋ : ℚ) + 1) := mul_lt_mul_of_pos_left h hb
  rw [mul_div_cancel₀ a hb.ne.symm] at h2
  linarith

theorem one_le_floor_div (a b : ℚ) (hb : 0 < b) (hab : b ≤ a) : 1 ≤ ⌊a / b⌋ := by
  rw [Int.le_floor]
  rw [le_div_iff₀ hb]
  simpa using hab

theorem loop_skip (st : Stages) (s : LoopState) (t : ℚ)
    (h : fl (t - s.game.lastFrameTime) < s.game.frameInterval) :
    Game.loop st s t =
      { s with calls := s.calls ++ [(t, Call.requestAnimationFrame)] } := by
  unfold Game.loop
  simp only [ge_iff_le]
  rw [if_neg (not_le.mpr h)]

theorem loop_exec (st : Stages) (s : LoopState) (t : ℚ)
    (h : s.game.frameInterval ≤ fl (t - s.game.lastFrameTime)) :
    Game.loop st s t =
      { game := { s.game with
          lastFrameTime :=
            fl (t - jsRem (fl (t - s.game.lastFrameTime)) s.game.frameInterval) }
        data := { pipeline st s.data with
          animationFrame := (pipeline st s.data).animationFrame + 1 }
        calls := s.calls ++
          [(t, Call.inputUpdate), (t, Call.animationUpdate), (t, Call.movementUpdate),
           (t, Call.physicsUpdate), (t, Call.updateView), (t, Call.renderUpdate),
           (t, Call.requestAnimationFrame)] } := by
  unfold Game.loop pipeline
  simp only [ge_iff_le]
  rw [if_pos h]
  simp

theorem loop_frameInterval (st : Stages) (s : LoopState) (t : ℚ) :
    (Game.loop st s t).game.frameInterval = s.game.frameInterval := by
  by_cases h : s.game.frameInterval ≤ fl (t - s.game.lastFrameTime)
  · rw [loop_exec st s t h]
  · rw [loop_skip st s t (not_le.mp h)]

theorem execTimes_skip (st : Stages) (s : LoopState) (t : ℚ)
    (h : fl (t - s.game.lastFrameTime) < s.game.frameInterval) :
    execTimes (Game.loop st s t) = execTimes s := by
  rw [loop_skip st s t h]
  simp [execTimes, List.filter_append]

theorem execTimes_exec (st : Stages) (s : LoopState) (t : ℚ)
    (h : s.game.frameInterval ≤ fl (t - s.game.lastFrameTime)) :
    execTimes (Game.loop st s t) = execTimes s ++ [t] := by
  rw [loop_exec st s t h]
  simp [execTimes, List.filter_append]

/-- The new `lastFrameTime` of an executing tick, whatever the signs: it is
within the two rounding errors of the old value plus a positive whole number
of intervals, at least the rounded `t − F` and at most the rounded `t`. -/
theorem lastFrameTime_exec (st : Stages) (s : LoopState) (t : ℚ)
    (hF : 0 < s.game.frameInterval)
    (h : s.game.frameInterval ≤ fl (t - s.game.lastFrameTime)) :
    (∃ k : ℕ, 0 < k ∧
      |(Game.loop st s t).game.lastFrameTime
          - (s.game.lastFrameTime + k * s.game.frameInterval)|
        ≤ (|t - s.game.lastFrameTime|
            + |t - jsRem (fl (t - s.game.lastFrameTime)) s.game.frameInterval|) / 2 ^ 53) ∧
    fl (t - s.game.frameInterval) ≤ (Game.loop st s t).game.lastFrameTime ∧
    (Game.loop st s t).game.lastFrameTime ≤ fl t := by
  have he : 0 ≤ fl (t - s.game.lastFrameTime) := le_trans hF.le h
  have hr0 := jsRem_nonneg _ _ hF he
  have hr1 := jsRem_lt _ _ hF he
  rw [loop_exec st s t h]
  simp only
  refine ⟨?_, fl_mono (by linarith), fl_mono (by linarith)⟩
  have h1 := one_le_floor_div _ _ hF h
  refine ⟨⌊fl (t - s.game.lastFrameTime) / s.game.frameInterval⌋.toNat, by omega, ?_⟩
  have hc : ((⌊fl (t - s.game.lastFrameTime) / s.game.frameInterval⌋.toNat : ℕ) : ℚ)
      = (⌊fl (t - s.game.lastFrameTime) / s.game.frameInterval⌋ : ℚ) := by
    have : ((⌊fl (t - s.game.lastFrameTime) / s.game.frameInterval⌋.toNat : ℕ) : ℤ)
        = ⌊fl (t - s.game.lastFrameTime) / s.game.frameInterval⌋ :=
      Int.toNat_of_nonneg (by omega)
    exact_mod_cast this
  rw [hc]
  have hrem := jsRem_of_nonneg _ _ hF he
  have e1 := fl_error (t - s.game.lastFrameTime)
  have e2 := fl_error (t - jsRem (fl (t - s.game.lastFrameTime)) s.game.frameInterval)
  have hsplit : fl (t - jsRem (fl (t - s.game.lastFrameTime)) s.game.frameInterval)
      - (s.game.lastFrameTime
          + (⌊fl (t - s.game.lastFrameTime) / s.game.frameInterval⌋ : ℚ) * s.game.frameInterval)
      = (fl (t - jsRem (fl (t - s.game.lastFrameTime)) s.game.frameInterval)
          - (t - jsRem (fl (t - s.game.lastFrameTime)) s.game.frameInterval))
        - (fl (t - s.game.lastFrameTime) - (t - s.game.lastFrameTime)) := by
    rw [hrem]; ring
  rw [hsplit]
  have htri := abs_sub
    (fl (t - jsRem (fl (t - s.game.lastFrameTime)) s.game.frameInterval)
      - (t - jsRem (fl (t - s.game.lastFrameTime)) s.game.frameInterval))
    (fl (t - s.game.lastFrameTime) - (t - s.game.lastFrameTime))
  have hsum : (|t - s.game.lastFrameTime|
      + |t - jsRem (fl (t - s.game.lastFrameTime)) s.game.frameInterval|) / 2 ^ 53
      = |t - s.game.lastFrameTime| / 2 ^ 53
        + |t - jsRem (fl (t - s.game.lastFrameTime)) s.game.frameInterval| / 2 ^ 53 := by
    ring
  rw [hsum]
  linarith

/-- The arithmetic of an executing tick in the regular situation: the old
`lastFrameTime` `L` and the timestamp `t` satisfy `0 ≤ L ≤ t ≤ T`, `t` is a
double, and `T/2^52 ≤ F`. -/
theorem exec_arith (L F t T : ℚ) (hF : 0 < F) (hT : T / 2 ^ 52 ≤ F) (hL0 : 0 ≤ L)
    (hLt : L ≤ t) (htT : t ≤ T) (ht : fl t = t) (h : F ≤ fl (t - L)) :
    0 ≤ fl (t - jsRem (fl (t - L)) F) ∧
    fl (t - jsRem (fl (t - L)) F) ≤ t ∧
    t - F - T / 2 ^ 53 < fl (t - jsRem (fl (t - L)) F) ∧
    L + F - T / 2 ^ 52 ≤ fl (t - jsRem (fl (t - L)) F) ∧
    L + F - F / 2 ^ 53 ≤ t ∧
    |t - L| + |t - jsRem (fl (t - L)) F| ≤ 2 * T := by
  have hT0 : 0 ≤ T := le_trans (le_trans hL0 hLt) htT
  have ha0 : 0 ≤ t - L := by linarith
  have haT : t - L ≤ T := by linarith
  have he : 0 ≤ fl (t - L) := le_trans hF.le h
  have hr0 := jsRem_nonneg _ _ hF he
  have hr1 := jsRem_lt _ _ hF he
  have hn := one_le_floor_div _ _ hF h
  have hrem := jsRem_of_nonneg _ _ hF he
  have hn' : (1 : ℚ) ≤ (⌊fl (t - L) / F⌋ : ℚ) := by exact_mod_cast hn
  have hrle : jsRem (fl (t - L)) F ≤ fl (t - L) - F := by
    rw [hrem]
    nlinarith
  have e1 := fl_error (t - L)
  rw [abs_of_nonneg ha0, abs_le] at e1
  have hu : (t - L) / 2 ^ 53 ≤ T / 2 ^ 53 := div_le_div_of_nonneg_right haT (by positivity)
  have hTT : T / 2 ^ 53 + T / 2 ^ 53 = T / 2 ^ 52 := by ring
  have hT53 : T / 2 ^ 53 ≤ T / 2 ^ 52 := by
    rw [← hTT]
    have : 0 ≤ T / 2 ^ 53 := by positivity
    linarith
  have hxpos : 0 < t - jsRem (fl (t - L)) F := by
    have hFhalf : T / 2 ^ 53 < F := by
      rcases eq_or_lt_of_le hT0 with h0 | h0
      · rw [← h0]; simpa using hF
      · have : T / 2 ^ 53 < T / 2 ^ 52 := by
          rw [← hTT]
          have : 0 < T / 2 ^ 53 := by positivity
          linarith
        linarith
    linarith
  have hxT : t - jsRem (fl (t - L)) F ≤ T := by linarith
  have e2 := fl_error (t - jsRem (fl (t - L)) F)
  rw [abs_of_pos hxpos, abs_le] at e2
  have hu2 : (t - jsRem (fl (t - L)) F) / 2 ^ 53 ≤ T / 2 ^ 53 :=
    div_le_div_of_nonneg_right hxT (by positivity)
  refine ⟨fl_nonneg hxpos.le, ?_, ?_, ?_, ?_, ?_⟩
  · have := fl_mono (by linarith : t - jsRem (fl (t - L)) F ≤ t)
    rwa [ht] at this
  · linarith
  · linarith
  · by_contra hc
    push_neg at hc
    have h1 : fl (t - L) ≤ (t - L) + (t - L) / 2 ^ 53 := by linarith
    have h2 : (t - L) + (t - L) / 2 ^ 53 = (t - L) * (1 + 1 / 2 ^ 53) := by ring
    have h3 : (t - L) * (1 + 1 / 2 ^ 53) < (F - F / 2 ^ 53) * (1 + 1 / 2 ^ 53) :=
      mul_lt_mul_of_pos_right (by linarith) (by positivity)
    have h4 : (F - F / 2 ^ 53) * (1 + 1 / 2 ^ 53) = F - F / 2 ^ 53 / 2 ^ 53 := by ring
    have h5 : 0 ≤ F / 2 ^ 53 / 2 ^ 53 := by positivity
    linarith
  · rw [abs_of_nonneg ha0, abs_of_pos hxpos]
    linarith

/-! ## Frame clock: any number of ticks -/

theorem ticks_cons (st : Stages) (s : LoopState) (t : ℚ) (ts : List ℚ) :
    ticks st s (t :: ts) = ticks st (Game.loop st s t) ts := rfl

theorem ticks_induction (st : Stages) (P : LoopState → Prop)
    (hstep : ∀ s t, P s → P (Game.loop st s t)) :
    ∀ (ts : List ℚ) (s : LoopState), P s → P (ticks st s ts) := by
  intro ts
  induction ts with
  | nil => intro s h; exact h
  | cons t ts ih =>
    intro s h
    rw [ticks_cons]
    exact ih _ (hstep s t h)

theorem run_eq (st : Stages) (g : Game) (d : Data) (t0 : ℚ) (hF : 0 < g.frameInterval) :
    Game.run st g d t0 =
      { game := { g with gameLoopRunning := true, lastFrameTime := t0 }
        data := d
        calls := [(t0, Call.requestAnimationFrame)] } := by
  unfold Game.run
  simp only
  rw [loop_skip]
  · simp
  · simpa [fl_zero] using hF

theorem getElem?_concat_cases (E : List ℚ) (t : ℚ) (i : ℕ) (a : ℚ)
    (h : (E ++ [t])[i]? = some a) :
    (i < E.length ∧ E[i]? = some a) ∨ (i = E.length ∧ a = t) := by
  rcases lt_trichotomy i E.length with hi | hi | hi
  · left
    rw [List.getElem?_append_left hi] at h
    exact ⟨hi, h⟩
  · right
    rw [hi, List.getElem?_concat_length] at h
    exact ⟨hi, (Option.some.inj h).symm⟩
  · exfalso
    have : (E ++ [t])[i]? = none := by
      apply List.getElem?_eq_none
      simp only [List.length_append, List.length_singleton]
      omega
    rw [this] at h
    exact Option.noConfusion h

theorem getLast?_of_getElem? (E : List ℚ) (i : ℕ) (a : ℚ) (h : E[i]? = some a)
    (hi : i + 1 = E.length) : a ∈ E.getLast? := by
  rw [Option.mem_def, List.getLast?_eq_getElem?]
  have : E.length - 1 = i := by omega
  rw [this]
  exact h

theorem clockInv_run (st : Stages) (g : Game) (d : Data) (t0 T : ℚ)
    (hF : 0 < g.frameInterval) (h0 : 0 ≤ t0) :
    ClockInv t0 g.frameInterval T (Game.run st g d t0) t0 := by
  rw [run_eq st g d t0 hF]
  refine ⟨rfl, ⟨h0, le_refl _⟩, ⟨0, by simp [execTimes], by simp [execTimes]⟩,
    by simp [execTimes], by simp [execTimes], by simp [execTimes]⟩

theorem clockInv_loop (st : Stages) (t0 F T : ℚ) (hF : 0 < F) (hT : T / 2 ^ 52 ≤ F)
    (s : LoopState) (p t : ℚ) (hpt : p ≤ t) (htT : t ≤ T) (ht : fl t = t)
    (h : ClockInv t0 F T s p) : ClockInv t0 F T (Game.loop st s t) t := by
  obtain ⟨hfi, ⟨hL0, hLp⟩, ⟨K, hK, hgrid⟩, hlast, hprev, hsep⟩ := h
  by_cases hex : s.game.frameInterval ≤ fl (t - s.game.lastFrameTime)
  · have hF' : 0 < s.game.frameInterval := by rw [hfi]; exact hF
    have hT' : T / 2 ^ 52 ≤ s.game.frameInterval := by rw [hfi]; exact hT
    have hLt : s.game.lastFrameTime ≤ t := le_trans hLp hpt
    obtain ⟨⟨n, hn, hdrift⟩, hlo, _⟩ := lastFrameTime_exec st s t hF' hex
    have hnew : (Game.loop st s t).game.lastFrameTime
        = fl (t - jsRem (fl (t - s.game.lastFrameTime)) s.game.frameInterval) := by
      rw [loop_exec st s t hex]
    obtain ⟨a0, a1, a2, a3, a4, a5⟩ :=
      exec_arith s.game.lastFrameTime s.game.frameInterval t T hF' hT' hL0 hLt htT ht hex
    rw [← hnew] at a0 a1 a2 a3
    rw [hfi] at hdrift hlo a2 a3 a4 a5
    have hE := execTimes_exec st s t hex
    have hlen : (execTimes (Game.loop st s t)).length = (execTimes s).length + 1 := by
      rw [hE]; simp
    have hT0 : 0 ≤ T := le_trans (le_trans hL0 hLt) htT
    have hd2 : |(Game.loop st s t).game.lastFrameTime - (s.game.lastFrameTime + n * F)|
        ≤ T / 2 ^ 52 := by
      refine le_trans hdrift ?_
      have : (|t - s.game.lastFrameTime|
          + |t - jsRem (fl (t - s.game.lastFrameTime)) F|) / 2 ^ 53
          ≤ 2 * T / 2 ^ 53 := div_le_div_of_nonneg_right a5 (by positivity)
      have e : 2 * T / 2 ^ 53 = T / 2 ^ 52 := by ring
      linarith
    have hmono : s.game.lastFrameTime ≤ (Game.loop st s t).game.lastFrameTime := by
      linarith
    refine ⟨by rw [loop_frameInterval, hfi], ⟨a0, a1⟩, ⟨K + n, ?_, ?_⟩, ?_, ?_, ?_⟩
    · rw [hlen]; omega
    · rw [hlen]
      have e : (Game.loop st s t).game.lastFrameTime - (t0 + ((K + n : ℕ) : ℚ) * F)
          = ((Game.loop st s t).game.lastFrameTime - (s.game.lastFrameTime + n * F))
            + (s.game.lastFrameTime - (t0 + K * F)) := by
        push_cast; ring
      rw [e]
      refine le_trans (abs_add _ _) ?_
      push_cast
      linarith
    · rw [hE, List.getLast?_concat]
      intro a ha
      rw [Option.mem_def, Option.some.injEq] at ha
      subst ha
      exact ⟨hlo, a1, a2⟩
    · intro i a hia hi
      rw [hlen] at hi
      rw [hE] at hia
      rcases getElem?_concat_cases _ _ _ _ hia with ⟨hi1, hia1⟩ | ⟨hi1, _⟩
      · by_cases hi2 : i + 1 < (execTimes s).length
        · have := hprev i a hia1 hi2
          linarith
        · have hmem := getLast?_of_getElem? _ i a hia1 (by omega)
          have := (hlast a hmem).2.2
          have e : T / 2 ^ 53 + T / 2 ^ 53 = T / 2 ^ 52 := by ring
          linarith
      · omega
    · intro i j a b hia hjb hij
      rw [hE] at hia hjb
      rcases getElem?_concat_cases _ _ _ _ hjb with ⟨hj1, hjb1⟩ | ⟨hj1, hbt⟩
      · rcases getElem?_concat_cases _ _ _ _ hia with ⟨_, hia1⟩ | ⟨hi1, _⟩
        · exact hsep i j a b hia1 hjb1 hij
        · omega
      · rcases getElem?_concat_cases _ _ _ _ hia with ⟨_, hia1⟩ | ⟨hi1, _⟩
        · have := hprev i a hia1 (by omega)
          rw [hbt]
          have e : (3 * T + F) / 2 ^ 53 = 3 * (T / 2 ^ 53) + F / 2 ^ 53 := by ring
          rw [e]
          linarith
        · omega
  · have hsk := not_le.mp hex
    have e1 : (Game.loop st s t).game = s.game := by rw [loop_skip st s t hsk]
    have hE := execTimes_skip st s t hsk
    refine ⟨by rw [e1]; exact hfi, ⟨by rw [e1]; exact hL0, by rw [e1]; exact le_trans hLp hpt⟩,
      ⟨K, by rw [hE]; exact hK, by rw [hE, e1]; exact hgrid⟩, ?_, ?_, ?_⟩
    · rw [hE, e1]; exact hlast
    · rw [hE, e1]; exact hprev
    · rw [hE]; exact hsep

theorem clockInv_ticks (st : Stages) (t0 F T : ℚ) (hF : 0 < F) (hT : T / 2 ^ 52 ≤ F) :
    ∀ (ts : List ℚ) (s : LoopState) (p : ℚ), ClockInv t0 F T s p →
      List.Chain (fun x y => x ≤ y) p ts → (∀ t ∈ ts, fl t = t) → (∀ t ∈ ts, t ≤ T) →
      ClockInv t0 F T (ticks st s ts) (ts.getLastD p) := by
  intro ts
  induction ts with
  | nil => intro s p h _ _ _; exact h
  | cons t ts ih =>
    intro s p h hc hd hb
    rw [List.chain_cons] at hc
    rw [ticks_cons, List.getLastD_cons]
    exact ih _ t
      (clockInv_loop st t0 F T hF hT s p t hc.1 (hb t (List.mem_cons_self _ _))
        (hd t (List.mem_cons_self _ _)) h)
      hc.2 (fun x hx => hd x (List.mem_cons_of_mem _ hx))
      (fun x hx => hb x (List.mem_cons_of_mem _ hx))

theorem clockInv_start (t0 F T : ℚ) (s : LoopState) (hfi : s.game.frameInterval = F)
    (hL : s.game.lastFrameTime = t0) (hE : execTimes s = []) (h0 : 0 ≤ t0) :
    ClockInv t0 F T s t0 := by
  refine ⟨hfi, ⟨by rw [hL]; exact h0, by rw [hL]⟩, ⟨0, by rw [hE]; simp, by rw [hE, hL]; simp⟩,
    by rw [hE]; simp, by rw [hE]; simp, by rw [hE]; simp⟩

/-- Ticks with timestamps below the start time are skipped, so a nondecreasing
sequence keeps the invariant wherever it starts. -/
theorem clockInv_sorted (st : Stages) (t0 F T : ℚ) (hF : 0 < F) (hT : T / 2 ^ 52 ≤ F)
    (h0 : 0 ≤ t0) :
    ∀ (ts : List ℚ) (s : LoopState), s.game.frameInterval = F → s.game.lastFrameTime = t0 →
      execTimes s = [] → ts.Sorted (fun x y => x ≤ y) → (∀ t ∈ ts, fl t = t) →
      (∀ t ∈ ts, t ≤ T) →
      ∃ p, p ≤ max t0 (ts.getLastD t0) ∧ ClockInv t0 F T (ticks st s ts) p := by
  intro ts
  induction ts with
  | nil =>
    intro s hfi hL hE _ _ _
    exact ⟨t0, le_max_left _ _, clockInv_start t0 F T s hfi hL hE h0⟩
  | cons t ts ih =>
    intro s hfi hL hE hs hd hb
    by_cases htt : t0 ≤ t
    · refine ⟨(t :: ts).getLastD t0, le_max_right _ _, ?_⟩
      exact clockInv_ticks st t0 F T hF hT (t :: ts) s t0
        (clockInv_start t0 F T s hfi hL hE h0)
        (List.chain_cons.mpr ⟨htt, List.chain_iff_pairwise.mpr hs⟩) hd hb
    · have hlt : t - s.game.lastFrameTime ≤ 0 := by rw [hL]; linarith
      have hfl : fl (t - s.game.lastFrameTime) < s.game.frameInterval := by
        have := fl_mono hlt
        rw [fl_zero] at this
        rw [hfi]
        linarith
      have hgame : (Game.loop st s t).game = s.game := by rw [loop_skip st s t hfl]
      rw [List.sorted_cons] at hs
      obtain ⟨p, hp, hinv⟩ := ih (Game.loop st s t) (by rw [hgame]; exact hfi)
        (by rw [hgame]; exact hL) (by rw [execTimes_skip st s t hfl]; exact hE) hs.2
        (fun x hx => hd x (List.mem_cons_of_mem _ hx))
        (fun x hx => hb x (List.mem_cons_of_mem _ hx))
      refine ⟨p, le_trans hp ?_, by rw [ticks_cons]; exact hinv⟩
      rw [List.getLastD_cons]
      cases ts with
      | nil => simp
      | cons u us =>
        rw [List.getLastD_cons, List.getLastD_cons]

theorem clockInv_sorted_run (st : Stages) (g : Game) (d : Data) (t0 T : ℚ) (ts : List ℚ)
    (hF : 0 < g.frameInterval) (hT : T / 2 ^ 52 ≤ g.frameInterval) (h0 : 0 ≤ t0)
    (hs : ts.Sorted (fun x y => x ≤ y)) (hd : ∀ t ∈ ts, fl t = t) (hb : ∀ t ∈ ts, t ≤ T) :
    ∃ p, p ≤ max t0 (ts.getLastD t0) ∧
      ClockInv t0 g.frameInterval T (ticks st (Game.run st g d t0) ts) p := by
  have hrun := run_eq st g d t0 hF
  exact clockInv_sorted st t0 g.frameInterval T hF hT h0 ts _ (by rw [hrun]) (by rw [hrun])
    (by rw [hrun]; simp [execTimes]) hs hd hb

theorem pipeline_animationFrame (st : Stages) (hst : st.keepFrameCounter) (d : Data) :
    (pipeline st d).animationFrame = d.animationFrame := by
  obtain ⟨h1, h2, h3, h4, h5⟩ := hst
  unfold pipeline
  rw [h5, updateView_animationFrame, h4, h3, h2, h1]

theorem ticks_animationFrame (st : Stages) (hst : st.keepFrameCounter) (n : ℕ) :
    ∀ (ts : List ℚ) (s : LoopState),
      s.data.animationFrame = n + (execTimes s).length →
      (ticks st s ts).data.animationFrame = n + (execTimes (ticks st s ts)).length := by
  refine ticks_induction st
    (fun s => s.data.animationFrame = n + (execTimes s).length) ?_
  intro s t h
  by_cases hex : s.game.frameInterval ≤ fl (t - s.game.lastFrameTime)
  · rw [execTimes_exec st s t hex, loop_exec st s t hex]
    simp only [List.length_append, List.length_singleton]
    rw [pipeline_animationFrame st hst, h]
    ring
  · rw [execTimes_skip st s t (not_le.mp hex), loop_skip st s t (not_le.mp hex)]
    exact h

/-! ## Frame clock: concrete ticks -/

theorem jsRem_eval (a b : ℚ) (n : ℤ) (hb : 0 < b) (ha : 0 ≤ a) (h1 : n * b ≤ a)
    (h2 : a < (n + 1) * b) : jsRem a b = a - b * n := by
  have hf : ⌊a / b⌋ = n := by
    rw [Int.floor_eq_iff, le_div_iff₀ hb, div_lt_iff₀ hb]
    exact ⟨h1, h2⟩
  rw [jsRem_of_nonneg a b hb ha, hf]

theorem tick_exec_eval (st : Stages) (s : LoopState) (t F L e r x : ℚ)
    (hF : s.game.frameInterval = F) (hL : s.game.lastFrameTime = L)
    (he : fl (t - L) = e) (hFe : F ≤ e) (hr : jsRem e F = r) (hx : fl (t - r) = x) :
    (Game.loop st s t).game.lastFrameTime = x ∧
    (Game.loop st s t).game.frameInterval = F ∧
    execTimes (Game.loop st s t) = execTimes s ++ [t] := by
  have hex : s.game.frameInterval ≤ fl (t - s.game.lastFrameTime) := by
    rw [hF, hL, he]; exact hFe
  refine ⟨?_, by rw [loop_frameInterval, hF], execTimes_exec st s t hex⟩
  rw [loop_exec st s t hex]
  simp only
  rw [hF, hL, he, hr, hx]

/-- The run at time 0 with ticks at 30, 34 and 70 ms, interval of the
constructor: all three ticks execute. -/
theorem ticks_30_34_70 :
    execTimes (ticks idleStages
      (Game.run idleStages Game.constructor (sampleData 0 175 30) 0) [30, 34]) = [30, 34] ∧
    execTimes (ticks idleStages
      (Game.run idleStages Game.constructor (sampleData 0 175 30) 0) [30, 34, 70])
      = [30, 34, 70] := by
  have hF := constructor_frameInterval
  have h0 := run_eq idleStages Game.constructor (sampleData 0 175 30) 0
    constructor_frameInterval_pos
  have hF0 : (Game.run idleStages Game.constructor (sampleData 0 175 30) 0).game.frameInterval
      = 4691249611844267 / 2 ^ 48 := by rw [h0]; exact hF
  have hL0 : (Game.run idleStages Game.constructor (sampleData 0 175 30) 0).game.lastFrameTime
      = 0 := by rw [h0]
  have hE0 : execTimes (Game.run idleStages Game.constructor (sampleData 0 175 30) 0) = [] := by
    rw [h0]; simp [execTimes]
  obtain ⟨hL1, hF1, hE1⟩ := tick_exec_eval idleStages
    (Game.run idleStages Game.constructor (sampleData 0 175 30) 0) 30
    (4691249611844267 / 2 ^ 48) 0 30 (30 - 4691249611844267 / 2 ^ 48)
    (4691249611844267 / 2 ^ 48) hF0 hL0
    (by rw [sub_zero]
        exact fl_of_double 30 4 (30 * 2 ^ 48) (by norm_num) (by norm_num) (by norm_num)
          (by norm_num))
    (by norm_num)
    (by rw [jsRem_eval 30 _ 1 (by norm_num) (by norm_num) (by norm_num) (by norm_num)]
        norm_num)
    (by rw [show (30 : ℚ) - (30 - 4691249611844267 / 2 ^ 48) = 4691249611844267 / 2 ^ 48 by
          ring]
        exact fl_of_double _ 4 4691249611844267 (by norm_num) (by norm_num) (by norm_num)
          (by norm_num))
  obtain ⟨hL2, hF2, hE2⟩ := tick_exec_eval idleStages
    (Game.loop idleStages (Game.run idleStages Game.constructor (sampleData 0 175 30) 0) 30) 34
    (4691249611844267 / 2 ^ 48) (4691249611844267 / 2 ^ 48)
    (34 - 4691249611844267 / 2 ^ 48) (34 - 2 * (4691249611844267 / 2 ^ 48))
    (2 * (4691249611844267 / 2 ^ 48)) hF1 hL1
    (fl_of_double _ 4 (34 * 2 ^ 48 - 4691249611844267) (by norm_num) (by norm_num)
      (by norm_num) (by norm_num))
    (by norm_num)
    (by rw [jsRem_eval _ _ 1 (by norm_num) (by norm_num) (by norm_num) (by norm_num)]
        norm_num)
    (by rw [show (34 : ℚ) - (34 - 2 * (4691249611844267 / 2 ^ 48))
          = 2 * (4691249611844267 / 2 ^ 48) by ring]
        exact fl_of_double _ 5 4691249611844267 (by norm_num) (by norm_num) (by norm_num)
          (by norm_num))
  obtain ⟨_, _, hE3⟩ := tick_exec_eval idleStages
    (Game.loop idleStages
      (Game.loop idleStages (Game.run idleStages Game.constructor (sampleData 0 175 30) 0) 30)
      34) 70
    (4691249611844267 / 2 ^ 48) (2 * (4691249611844267 / 2 ^ 48))
    (70 - 2 * (4691249611844267 / 2 ^ 48)) (70 - 4 * (4691249611844267 / 2 ^ 48))
    (4 * (4691249611844267 / 2 ^ 48)) hF2 hL2
    (fl_of_double _ 5 (70 * 2 ^ 47 - 4691249611844267) (by norm_num) (by norm_num)
      (by norm_num) (by norm_num))
    (by norm_num)
    (by rw [jsRem_eval _ _ 2 (by norm_num) (by norm_num) (by norm_num) (by norm_num)]
        norm_num)
    (by rw [show (70 : ℚ) - (70 - 4 * (4691249611844267 / 2 ^ 48))
          = 4 * (4691249611844267 / 2 ^ 48) by ring]
        exact fl_of_double _ 6 4691249611844267 (by norm_num) (by norm_num) (by norm_num)
          (by norm_num))
  constructor
  · show execTimes (Game.loop idleStages (Game.loop idleStages _ 30) 34) = [30, 34]
    rw [hE2, hE1, hE0]
    rfl
  · show execTimes (Game.loop idleStages (Game.loop idleStages (Game.loop idleStages _ 30) 34) 70)
      = [30, 34, 70]
    rw [hE3, hE2, hE1, hE0]
    rfl

theorem fl_small_nat_30 : fl 30 = 30 :=
  fl_of_double 30 4 (30 * 2 ^ 48) (by norm_num) (by norm_num) (by norm_num) (by norm_num)

theorem fl_small_nat_34 : fl 34 = 34 :=
  fl_of_double 34 5 (34 * 2 ^ 47) (by norm_num) (by norm_num) (by norm_num) (by norm_num)

theorem fl_small_nat_70 : fl 70 = 70 :=
  fl_of_double 70 6 (70 * 2 ^ 46) (by norm_num) (by norm_num) (by norm_num) (by norm_num)

theorem doubles_30_34_70 : ∀ t ∈ ([30, 34, 70] : List ℚ), fl t = t := by
  intro t ht
  simp only [List.mem_cons, List.mem_singleton, List.not_mem_nil, or_false] at ht
  rcases ht with h | h | h
  · rw [h]; exact fl_small_nat_30
  · rw [h]; exact fl_small_nat_34
  · rw [h]; exact fl_small_nat_70

theorem bounded_30_34_70 : ∀ t ∈ ([30, 34, 70] : List ℚ), t ≤ 100 := by
  intro t ht
  simp only [List.mem_cons, List.mem_singleton, List.not_mem_nil, or_false] at ht
  rcases ht with h | h | h <;> rw [h] <;> norm_num

theorem sorted_30_34_70 : ([30, 34, 70] : List ℚ).Sorted (fun x y => x ≤ y) := by
  simp only [List.sorted_cons, List.mem_cons, List.mem_singleton, List.not_mem_nil,
    List.sorted_nil, forall_eq_or_imp, forall_eq, and_true, false_imp_iff, implies_true,
    or_false]
  norm_num

theorem bound_100 : (100 : ℚ) / 2 ^ 52 ≤ Game.constructor.frameInterval := by
  rw [constructor_frameInterval]
  norm_num

/-! ## Frame clock: the claims -/

/-- C3 (as stated, refuted): started at time 0 with the interval of the
constructor, the nondecreasing timestamps 30 and 34 (both doubles) both
execute the pipeline (the first moves `lastFrameTime` to the interval itself,
so the second sees an elapsed time above it), yet they are only 4 ms apart. -/
theorem exec_ticks_closer_than_interval :
    ([30, 34] : List ℚ).Sorted (fun x y => x ≤ y) ∧ (0 : ℚ) ≤ 30 ∧
    fl 30 = 30 ∧ fl 34 = 34 ∧
    execTimes (ticks idleStages
      (Game.run idleStages Game.constructor (sampleData 0 175 30) 0) [30, 34]) = [30, 34] ∧
    ¬ (Game.constructor.frameInterval ≤ (34 : ℚ) - 30) := by
  refine ⟨?_, by norm_num, fl_small_nat_30, fl_small_nat_34, ticks_30_34_70.1, ?_⟩
  · simp only [List.sorted_cons, List.mem_singleton, List.not_mem_nil, List.sorted_nil,
      forall_eq, and_true, false_imp_iff, implies_true]
    norm_num
  · rw [constructor_frameInterval]
    norm_num

/-- C3 (amended): frame pacing up to rounding.  After `run` at `t0 ≥ 0`, for
every nondecreasing sequence of double timestamps bounded by `T`, with
`T ≤ 2^52·F` for `F = frameInterval`: any two ticks on which the pipeline
executes and between which it executes at least once more are more than
`F − (3T + F)/2^53` apart.  (Two successive executions may be closer than
`F`.) -/
theorem exec_ticks_separated (st : Stages) (g : Game) (d : Data) (t0 T : ℚ) (ts : List ℚ)
    (hF : 0 < g.frameInterval) (hT : T / 2 ^ 52 ≤ g.frameInterval) (h0 : 0 ≤ t0)
    (hs : ts.Sorted (fun x y => x ≤ y)) (hd : ∀ t ∈ ts, fl t = t)
    (hb : ∀ t ∈ ts, t ≤ T) (i j : ℕ) (a b : ℚ)
    (hi : (execTimes (ticks st (Game.run st g d t0) ts))[i]? = some a)
    (hj : (execTimes (ticks st (Game.run st g d t0) ts))[j]? = some b)
    (hij : i + 2 ≤ j) :
    g.frameInterval - (3 * T + g.frameInterval) / 2 ^ 53 < b - a := by
  obtain ⟨p, _, hinv⟩ := clockInv_sorted_run st g d t0 T ts hF hT h0 hs hd hb
  exact hinv.2.2.2.2.2 i j a b hi hj hij

theorem exec_ticks_separated_witness :
    0 < Game.constructor.frameInterval ∧
    (100 : ℚ) / 2 ^ 52 ≤ Game.constructor.frameInterval ∧
    ([30, 34, 70] : List ℚ).Sorted (fun x y => x ≤ y) ∧
    (∀ t ∈ ([30, 34, 70] : List ℚ), fl t = t) ∧
    (execTimes (ticks idleStages
      (Game.run idleStages Game.constructor (sampleData 0 175 30) 0) [30, 34, 70]))[0]?
        = some 30 ∧
    (execTimes (ticks idleStages
      (Game.run idleStages Game.constructor (sampleData 0 175 30) 0) [30, 34, 70]))[2]?
        = some 70 ∧
    Game.constructor.frameInterval - (3 * 100 + Game.constructor.frameInterval) / 2 ^ 53
      < 70 - 30 :=
  ⟨constructor_frameInterval_pos, bound_100, sorted_30_34_70, doubles_30_34_70,
    by rw [ticks_30_34_70.2]; rfl, by rw [ticks_30_34_70.2]; rfl,
    exec_ticks_separated idleStages Game.constructor (sampleData 0 175 30) 0 100 [30, 34, 70]
      constructor_frameInterval_pos bound_100 (le_refl 0) sorted_30_34_70 doubles_30_34_70
      bounded_30_34_70 0 2 30 70 (by rw [ticks_30_34_70.2]; rfl)
      (by rw [ticks_30_34_70.2]; rfl) (le_refl 2)⟩

/-- C4: one tick of `loop` with `elapsed = currentTime − lastFrameTime` (as
computed, in binary64).  If `elapsed < frameInterval`, the instance and the
world state are unchanged and the only call is the re-arming
`requestAnimationFrame`.  Otherwise `lastFrameTime` becomes
`currentTime − elapsed % frameInterval`, the stages run once each in the
order input, animation, movement, physics, `Game.updateView`, render, then
`animationFrame` is incremented by 1, and `requestAnimationFrame` is called
once. -/
theorem loop_one_tick (st : Stages) (s : LoopState) (currentTime : ℚ) :
    Game.loop st s currentTime =
      if fl (currentTime - s.game.lastFrameTime) < s.game.frameInterval then
        { game := s.game
          data := s.data
          calls := s.calls ++ [(currentTime, Call.requestAnimationFrame)] }
      else
        { game := { s.game with
            lastFrameTime :=
              fl (currentTime
                - jsRem (fl (currentTime - s.game.lastFrameTime)) s.game.frameInterval) }
          data := { st.renderUpdate (Game.updateView (st.physicsUpdate (st.movementUpdate
              (st.animationUpdate (st.inputUpdate s.data))))) with
            animationFrame := (st.renderUpdate (Game.updateView (st.physicsUpdate
              (st.movementUpdate (st.animationUpdate (st.inputUpdate s.data)))))).animationFrame
                + 1 }
          calls := s.calls ++
            [(currentTime, Call.inputUpdate), (currentTime, Call.animationUpdate),
             (currentTime, Call.movementUpdate), (currentTime, Call.physicsUpdate),
             (currentTime, Call.updateView), (currentTime, Call.renderUpdate),
             (currentTime, Call.requestAnimationFrame)] } := by
  by_cases h : fl (currentTime - s.game.lastFrameTime) < s.game.frameInterval
  · rw [if_pos h, loop_skip st s currentTime h]
  · rw [if_neg h, loop_exec st s currentTime (not_lt.mp h)]
    rfl

/-- C5 (as stated, refuted): with the interval of the constructor, `run` at
223 and one tick at 273 (both doubles): elapsed is 50, the remainder is
`50 − 2·F`, and `273 − (50 − 2·F) = 223 + 2·F` rounds down to the double
`4509463689385301 / 2^44`.  That value is not above `currentTime − F`, and it
is no `223 + k·F`. -/
theorem lastFrameTime_leaves_grid :
    fl 223 = 223 ∧ fl 273 = 273 ∧
    Game.constructor.frameInterval ≤ fl (273 - 223) ∧
    (ticks idleStages (Game.run idleStages Game.constructor (sampleData 0 175 30) 223)
      [273]).game.lastFrameTime = 4509463689385301 / 2 ^ 44 ∧
    ¬ (273 - Game.constructor.frameInterval
        < (ticks idleStages (Game.run idleStages Game.constructor (sampleData 0 175 30) 223)
            [273]).game.lastFrameTime) ∧
    ¬ ∃ k : ℕ, (ticks idleStages (Game.run idleStages Game.constructor (sampleData 0 175 30) 223)
        [273]).game.lastFrameTime = 223 + k * Game.constructor.frameInterval := by
  have hF := constructor_frameInterval
  have h0 := run_eq idleStages Game.constructor (sampleData 0 175 30) 223
    constructor_frameInterval_pos
  have hF0 : (Game.run idleStages Game.constructor (sampleData 0 175 30) 223).game.frameInterval
      = 4691249611844267 / 2 ^ 48 := by rw [h0]; exact hF
  have hL0 : (Game.run idleStages Game.constructor (sampleData 0 175 30) 223).game.lastFrameTime
      = 223 := by rw [h0]
  have h50 : fl (273 - 223) = 50 := by
    rw [show (273 : ℚ) - 223 = 50 by norm_num]
    exact fl_of_double 50 5 (50 * 2 ^ 47) (by norm_num) (by norm_num) (by norm_num)
      (by norm_num)
  obtain ⟨hL1, _, _⟩ := tick_exec_eval idleStages
    (Game.run idleStages Game.constructor (sampleData 0 175 30) 223) 273
    (4691249611844267 / 2 ^ 48) 223 50 (50 - 2 * (4691249611844267 / 2 ^ 48))
    (4509463689385301 / 2 ^ 44) hF0 hL0 h50
    (by norm_num)
    (by rw [jsRem_eval 50 _ 2 (by norm_num) (by norm_num) (by norm_num) (by norm_num)]
        norm_num)
    (by rw [fl_eval _ 8 4509463689385301 (by norm_num) (by norm_num) (by norm_num)
          (by rw [abs_lt]; constructor <;> norm_num)]
        norm_num)
  have hval : (ticks idleStages (Game.run idleStages Game.constructor (sampleData 0 175 30) 223)
      [273]).game.lastFrameTime = 4509463689385301 / 2 ^ 44 := hL1
  refine ⟨?_, ?_, ?_, hval, ?_, ?_⟩
  · exact fl_of_double 223 7 (223 * 2 ^ 45) (by norm_num) (by norm_num) (by norm_num)
      (by norm_num)
  · exact fl_of_double 273 8 (273 * 2 ^ 44) (by norm_num) (by norm_num) (by norm_num)
      (by norm_num)
  · rw [h50, hF]; norm_num
  · rw [hval, hF]; norm_num
  · rw [hval, hF]
    rintro ⟨k, hk⟩
    rcases Nat.lt_or_ge k 2 with h2 | h2
    · have hk1 : (k : ℚ) ≤ 1 := by
        have : k ≤ 1 := by omega
        exact_mod_cast this
      have : (k : ℚ) * (4691249611844267 / 2 ^ 48) ≤ 1 * (4691249611844267 / 2 ^ 48) :=
        mul_le_mul_of_nonneg_right hk1 (by norm_num)
      norm_num at hk this
      linarith
    · have hk2 : (2 : ℚ) ≤ k := by exact_mod_cast h2
      have : 2 * (4691249611844267 / 2 ^ 48) ≤ (k : ℚ) * (4691249611844267 / 2 ^ 48) :=
        mul_le_mul_of_nonneg_right hk2 (by norm_num)
      norm_num at hk this
      linarith

/-- C5 (amended): phase preservation up to rounding.  On every tick with
`elapsed = fl(currentTime − lastFrameTime) ≥ frameInterval = F`, the new
`lastFrameTime` is `fl(currentTime − elapsed % F)`; it differs from the old
one plus a positive whole multiple of `F` by at most
`(|currentTime − old| + |currentTime − elapsed % F|) / 2^53`, and
`fl(currentTime − F) ≤ lastFrameTime ≤ fl(currentTime)`.  Hence after `run` at
`t0 ≥ 0` and any number of ticks with nondecreasing double timestamps bounded
by `T ≤ 2^52·F`, `lastFrameTime` is within `N·T/2^52` of a grid point
`t0 + k·F` (`N` the number of executions) and lags the latest executing
timestamp `t` by at most one rounded interval: `fl(t − F) ≤ lastFrameTime ≤ t`. -/
theorem lastFrameTime_phase_rounded (st : Stages) (g : Game) (hF : 0 < g.frameInterval) :
    (∀ (d : Data) (calls : List (ℚ × Call)) (currentTime : ℚ),
      g.frameInterval ≤ fl (currentTime - g.lastFrameTime) →
      (Game.loop st { game := g, data := d, calls := calls } currentTime).game.lastFrameTime
        = fl (currentTime - jsRem (fl (currentTime - g.lastFrameTime)) g.frameInterval) ∧
      (∃ k : ℕ, 0 < k ∧
        |(Game.loop st { game := g, data := d, calls := calls } currentTime).game.lastFrameTime
            - (g.lastFrameTime + k * g.frameInterval)|
          ≤ (|currentTime - g.lastFrameTime|
              + |currentTime - jsRem (fl (currentTime - g.lastFrameTime)) g.frameInterval|)
            / 2 ^ 53) ∧
      fl (currentTime - g.frameInterval)
        ≤ (Game.loop st { game := g, data := d, calls := calls } currentTime).game.lastFrameTime ∧
      (Game.loop st { game := g, data := d, calls := calls } currentTime).game.lastFrameTime
        ≤ fl currentTime) ∧
    (∀ (d : Data) (t0 T : ℚ) (ts : List ℚ), 0 ≤ t0 → T / 2 ^ 52 ≤ g.frameInterval →
      ts.Sorted (fun x y => x ≤ y) → (∀ t ∈ ts, fl t = t) → (∀ t ∈ ts, t ≤ T) →
      (∃ k : ℕ, |(ticks st (Game.run st g d t0) ts).game.lastFrameTime - (t0 + k * g.frameInterval)|
        ≤ (execTimes (ticks st (Game.run st g d t0) ts)).length * (T / 2 ^ 52)) ∧
      ∀ t ∈ (execTimes (ticks st (Game.run st g d t0) ts)).getLast?,
        fl (t - g.frameInterval) ≤ (ticks st (Game.run st g d t0) ts).game.lastFrameTime ∧
        (ticks st (Game.run st g d t0) ts).game.lastFrameTime ≤ t) := by
  constructor
  · intro d calls t h
    refine ⟨?_, lastFrameTime_exec st { game := g, data := d, calls := calls } t hF h⟩
    rw [loop_exec st { game := g, data := d, calls := calls } t h]
  · intro d t0 T ts h0 hT hs hd hb
    obtain ⟨p, _, _, _, ⟨k, _, hk⟩, hlast, _, _⟩ :=
      clockInv_sorted_run st g d t0 T ts hF hT h0 hs hd hb
    exact ⟨⟨k, hk⟩, fun t ht => ⟨(hlast t ht).1, (hlast t ht).2.1⟩⟩

theorem lastFrameTime_phase_rounded_witness :
    0 < Game.constructor.frameInterval ∧
    Game.constructor.frameInterval ≤ fl (30 - Game.constructor.lastFrameTime) ∧
    (Game.loop idleStages
      { game := Game.constructor, data := sampleData 0 175 30, calls := [] } 30).game.lastFrameTime
      = fl (30 - jsRem (fl (30 - Game.constructor.lastFrameTime))
          Game.constructor.frameInterval) ∧
    (0 : ℚ) ≤ 0 ∧ (100 : ℚ) / 2 ^ 52 ≤ Game.constructor.frameInterval ∧
    ([30, 34, 70] : List ℚ).Sorted (fun x y => x ≤ y) ∧
    (∀ t ∈ ([30, 34, 70] : List ℚ), fl t = t) ∧ (∀ t ∈ ([30, 34, 70] : List ℚ), t ≤ 100) ∧
    (∃ k : ℕ, |(ticks idleStages
        (Game.run idleStages Game.constructor (sampleData 0 175 30) 0)
          [30, 34, 70]).game.lastFrameTime - (0 + k * Game.constructor.frameInterval)|
      ≤ (execTimes (ticks idleStages
          (Game.run idleStages Game.constructor (sampleData 0 175 30) 0) [30, 34, 70])).length
        * (100 / 2 ^ 52)) :=
  have h30 : Game.constructor.frameInterval ≤ fl (30 - Game.constructor.lastFrameTime) := by
    rw [constructor_frameInterval]
    show (4691249611844267 : ℚ) / 2 ^ 48 ≤ fl (30 - 0)
    rw [sub_zero, fl_small_nat_30]
    norm_num
  ⟨constructor_frameInterval_pos, h30,
    ((lastFrameTime_phase_rounded idleStages Game.constructor constructor_frameInterval_pos).1
      (sampleData 0 175 30) [] 30 h30).1,
    le_refl 0, bound_100, sorted_30_34_70, doubles_30_34_70, bounded_30_34_70,
    ((lastFrameTime_phase_rounded idleStages Game.constructor constructor_frameInterval_pos).2
      (sampleData 0 175 30) 0 100 [30, 34, 70] (le_refl 0) bound_100 sorted_30_34_70
      doubles_30_34_70 bounded_30_34_70).1⟩

theorem idleStages_keepFrameCounter : idleStages.keepFrameCounter :=
  ⟨fun _ => rfl, fun _ => rfl, fun _ => rfl, fun _ => rfl, fun _ => rfl⟩

/-- C8 (as stated, refuted): `run` at the double `0.173` and one tick at the
double `16.839666666666666`: the computed elapsed time rounds up to the
interval of the constructor, so the pipeline executes once (and
`animationFrame` goes up by 1), while `(tn − t0) / frameInterval < 1`. -/
theorem executions_exceed_exact_bound :
    fl (3116490942140383 / 2 ^ 54) = 3116490942140383 / 2 ^ 54 ∧
    fl (2369972391407605 / 2 ^ 47) = 2369972391407605 / 2 ^ 47 ∧
    (3116490942140383 / 2 ^ 54 : ℚ) ≤ 2369972391407605 / 2 ^ 47 ∧
    execTimes (ticks idleStages
      (Game.run idleStages Game.constructor (sampleData 0 175 30) (3116490942140383 / 2 ^ 54))
      [2369972391407605 / 2 ^ 47]) = [2369972391407605 / 2 ^ 47] ∧
    (ticks idleStages
      (Game.run idleStages Game.constructor (sampleData 0 175 30) (3116490942140383 / 2 ^ 54))
      [2369972391407605 / 2 ^ 47]).data.animationFrame
        = (sampleData 0 175 30).animationFrame + 1 ∧
    ¬ ((1 : ℚ) ≤ (2369972391407605 / 2 ^ 47 - 3116490942140383 / 2 ^ 54)
        / Game.constructor.frameInterval) := by
  have hF := constructor_frameInterval
  have h0 := run_eq idleStages Game.constructor (sampleData 0 175 30)
    (3116490942140383 / 2 ^ 54) constructor_frameInterval_pos
  have he : fl (2369972391407605 / 2 ^ 47 - 3116490942140383 / 2 ^ 54)
      = 4691249611844267 / 2 ^ 48 := by
    rw [fl_eval _ 4 4691249611844267 (by norm_num) (by norm_num) (by norm_num)
      (by rw [abs_lt]; constructor <;> norm_num)]
    norm_num
  have hex : (Game.run idleStages Game.constructor (sampleData 0 175 30)
      (3116490942140383 / 2 ^ 54)).game.frameInterval
      ≤ fl (2369972391407605 / 2 ^ 47 - (Game.run idleStages Game.constructor
          (sampleData 0 175 30) (3116490942140383 / 2 ^ 54)).game.lastFrameTime) := by
    rw [h0]
    show Game.constructor.frameInterval
      ≤ fl (2369972391407605 / 2 ^ 47 - 3116490942140383 / 2 ^ 54)
    rw [he, hF]
  have hE := execTimes_exec idleStages _ _ hex
  have hE0 : execTimes (Game.run idleStages Game.constructor (sampleData 0 175 30)
      (3116490942140383 / 2 ^ 54)) = [] := by
    rw [h0]; simp [execTimes]
  have hEt : execTimes (ticks idleStages
      (Game.run idleStages Game.constructor (sampleData 0 175 30) (3116490942140383 / 2 ^ 54))
      [2369972391407605 / 2 ^ 47]) = [2369972391407605 / 2 ^ 47] := by
    show execTimes (Game.loop idleStages _ _) = _
    rw [hE, hE0]
    rfl
  refine ⟨?_, ?_, by norm_num, hEt, ?_, ?_⟩
  · exact fl_of_double _ (-3) 6232981884280766 (by norm_num) (by norm_num) (by norm_num)
      (by norm_num)
  · exact fl_of_double _ 4 (2 * 2369972391407605) (by norm_num) (by norm_num) (by norm_num)
      (by norm_num)
  · have := ticks_animationFrame idleStages idleStages_keepFrameCounter
      (sampleData 0 175 30).animationFrame [2369972391407605 / 2 ^ 47]
      (Game.run idleStages Game.constructor (sampleData 0 175 30) (3116490942140383 / 2 ^ 54))
      (by rw [hE0, h0]; rfl)
    rw [this, hEt]
    rfl
  · rw [hF]
    norm_num

/-- C8 (amended): upper bound on the update frequency, up to rounding.  If
`run` starts at `t0 ≥ 0` and the loop is then called with nondecreasing double
timestamps `t1 ≤ … ≤ tn`, `tn ≥ t0`, all bounded by `T`, then the start call
`loop(t0)` runs no stage (its only call is the re-arming), the number `N` of
pipeline executions equals the increase of `data.animationFrame` provided no
collaborator stage writes that counter, and `N·(F − T/2^52) ≤ tn − t0` for
`F = frameInterval`. -/
theorem executions_bounded_rounded (st : Stages) (g : Game) (d : Data) (t0 T : ℚ)
    (ts : List ℚ) (hF : 0 < g.frameInterval) (h0 : 0 ≤ t0)
    (hs : ts.Sorted (fun x y => x ≤ y)) (hn : t0 ≤ ts.getLastD t0)
    (hd : ∀ t ∈ ts, fl t = t) (hb : ∀ t ∈ ts, t ≤ T) :
    (Game.run st g d t0).calls = [(t0, Call.requestAnimationFrame)] ∧
    (Game.run st g d t0).data = d ∧
    (st.keepFrameCounter →
      (ticks st (Game.run st g d t0) ts).data.animationFrame
        = d.animationFrame + (execTimes (ticks st (Game.run st g d t0) ts)).length) ∧
    ((execTimes (ticks st (Game.run st g d t0) ts)).length : ℚ) * (g.frameInterval - T / 2 ^ 52)
      ≤ ts.getLastD t0 - t0 := by
  have hrun := run_eq st g d t0 hF
  refine ⟨by rw [hrun], by rw [hrun], ?_, ?_⟩
  · intro hst
    apply ticks_animationFrame st hst
    rw [hrun]
    simp [execTimes]
  · by_cases hT : T / 2 ^ 52 ≤ g.frameInterval
    · obtain ⟨p, hp, _, ⟨_, hle⟩, ⟨k, hk, hgrid⟩, _, _, _⟩ :=
        clockInv_sorted_run st g d t0 T ts hF hT h0 hs hd hb
      rw [max_eq_right hn] at hp
      rw [abs_le] at hgrid
      have h1 : ((execTimes (ticks st (Game.run st g d t0) ts)).length : ℚ) ≤ (k : ℚ) := by
        exact_mod_cast hk
      have h2 := mul_le_mul_of_nonneg_right h1 hF.le
      nlinarith [hgrid.1, hgrid.2]
    · have hneg : g.frameInterval - T / 2 ^ 52 ≤ 0 := by linarith [not_le.mp hT]
      have hcnt : (0 : ℚ) ≤ ((execTimes (ticks st (Game.run st g d t0) ts)).length : ℚ) :=
        Nat.cast_nonneg _
      have := mul_nonpos_of_nonneg_of_nonpos hcnt hneg
      linarith

theorem executions_bounded_rounded_witness :
    0 < Game.constructor.frameInterval ∧ (0 : ℚ) ≤ 0 ∧
    ([30, 34, 70] : List ℚ).Sorted (fun x y => x ≤ y) ∧
    (0 : ℚ) ≤ ([30, 34, 70] : List ℚ).getLastD 0 ∧
    (∀ t ∈ ([30, 34, 70] : List ℚ), fl t = t) ∧ (∀ t ∈ ([30, 34, 70] : List ℚ), t ≤ 100) ∧
    idleStages.keepFrameCounter ∧
    (ticks idleStages (Game.run idleStages Game.constructor (sampleData 0 175 30) 0)
      [30, 34, 70]).data.animationFrame
      = (sampleData 0 175 30).animationFrame
        + (execTimes (ticks idleStages
            (Game.run idleStages Game.constructor (sampleData 0 175 30) 0) [30, 34, 70])).length ∧
    ((execTimes (ticks idleStages
        (Game.run idleStages Game.constructor (sampleData 0 175 30) 0) [30, 34, 70])).length : ℚ)
        * (Game.constructor.frameInterval - 100 / 2 ^ 52)
      ≤ ([30, 34, 70] : List ℚ).getLastD 0 - 0 :=
  ⟨constructor_frameInterval_pos, le_refl 0, sorted_30_34_70, by simp [List.getLastD],
    doubles_30_34_70, bounded_30_34_70, idleStages_keepFrameCounter,
    (executions_bounded_rounded idleStages Game.constructor (sampleData 0 175 30) 0 100
      [30, 34, 70] constructor_frameInterval_pos (le_refl 0) sorted_30_34_70
      (by simp [List.getLastD]) doubles_30_34_70 bounded_30_34_70).2.2.1
      idleStages_keepFrameCounter,
    (executions_bounded_rounded idleStages Game.constructor (sampleData 0 175 30) 0 100
      [30, 34, 70] constructor_frameInterval_pos (le_refl 0) sorted_30_34_70
      (by simp [List.getLastD]) doubles_30_34_70 bounded_30_34_70).2.2.2⟩

/-! ## Start-up: the guard of `init` and the load gate -/

theorem loop_gameLoopRunning (st : Stages) (s : LoopState) (t : ℚ) :
    (Game.loop st s t).game.gameLoopRunning = s.game.gameLoopRunning := by
  by_cases h : s.game.frameInterval ≤ fl (t - s.game.lastFrameTime)
  · rw [loop_exec st s t h]
  · rw [loop_skip st s t (not_le.mp h)]

theorem run_game (st : Stages) (g : Game) (d : Data) (now : ℚ) :
    (Game.run st g d now).game.gameLoopRunning = true := by
  unfold Game.run
  simp only
  rw [loop_gameLoopRunning]

theorem spriteSheetLoad_assets (st : Stages) (lvl : Level) (p : Page) (now : ℚ) :
    (spriteSheetLoad st lvl p now).assets = p.assets := rfl

theorem spriteSheetLoad_started (st : Stages) (lvl : Level) (p : Page) (now : ℚ) :
    (spriteSheetLoad st lvl p now).game.gameLoopRunning = true ∧
    (spriteSheetLoad st lvl p now).loops ≠ [] := by
  constructor
  · exact run_game st p.game (initialData lvl) now
  · simp [spriteSheetLoad, Page.run]

/-- The guard of `init` (game.js 37-41): on an instance whose loop is marked
running, `init` changes nothing. -/
theorem init_noop_when_running (p : Page) (h : p.game.gameLoopRunning = true) :
    Game.init p = p := by
  unfold Game.init
  rw [if_pos h]
  split_ifs <;> rfl

theorem constructor_gameLoopRunning : Game.constructor.gameLoopRunning = false := rfl

theorem constructor_lastFrameTime : Game.constructor.lastFrameTime = 0 := rfl

theorem spriteSheetLoad_sample (p : Page) (now : ℚ)
    (hg : p.game.frameInterval = Game.constructor.frameInterval) :
    (spriteSheetLoad idleStages sampleLevel p now).game
        = { p.game with gameLoopRunning := true, lastFrameTime := now } ∧
    (spriteSheetLoad idleStages sampleLevel p now).loops
        = p.loops ++ [initialData sampleLevel] := by
  have hr := run_eq idleStages p.game (initialData sampleLevel) now
    (by rw [hg]; exact constructor_frameInterval_pos)
  constructor
  · show (Game.run idleStages p.game (initialData sampleLevel) now).game = _
    rw [hr]
  · show p.loops ++ [(Game.run idleStages p.game (initialData sampleLevel) now).data] = _
    rw [hr]

theorem pageRun_sample (p : Page) (now : ℚ)
    (hg : p.game.frameInterval = Game.constructor.frameInterval) :
    (Page.run idleStages p (initialData sampleLevel) now).game
        = { p.game with gameLoopRunning := true, lastFrameTime := now } ∧
    (Page.run idleStages p (initialData sampleLevel) now).loops
        = p.loops ++ [initialData sampleLevel] := by
  have hr := run_eq idleStages p.game (initialData sampleLevel) now
    (by rw [hg]; exact constructor_frameInterval_pos)
  constructor
  · show (Game.run idleStages p.game (initialData sampleLevel) now).game = _
    rw [hr]
  · show p.loops ++ [(Game.run idleStages p.game (initialData sampleLevel) now).data] = _
    rw [hr]

theorem init_fresh :
    Game.init (Page.fresh false) =
      { game := { Game.constructor with muted := some false }
        mobileBlocked := false
        ctxScale := 1 * 3
        interactionListeners := 0 + 3
        muteListeners := 0 + 1
        assets := [{ spriteSheet := false, marioSprite := false, tileset := false }]
        loops := []
        calls := [] } := by
  simp [Game.init, Page.fresh, constructor_gameLoopRunning]

theorem init_init_fresh :
    Game.init (Game.init (Page.fresh false)) =
      { game := { Game.constructor with muted := some false }
        mobileBlocked := false
        ctxScale := 1 * 3 * 3
        interactionListeners := 0 + 3 + 3
        muteListeners := 0 + 1 + 1
        assets := [{ spriteSheet := false, marioSprite := false, tileset := false },
          { spriteSheet := false, marioSprite := false, tileset := false }]
        loops := []
        calls := [] } := by
  rw [init_fresh]
  simp [Game.init, constructor_gameLoopRunning]

theorem after_spriteSheet :
    (Page.after idleStages sampleLevel false [Event.load 0 AssetKind.spriteSheet 0]).game
      = { Game.constructor with muted := some false, gameLoopRunning := true, lastFrameTime := 0 } ∧
    (Page.after idleStages sampleLevel false [Event.load 0 AssetKind.spriteSheet 0]).loops
      = [initialData sampleLevel] ∧
    (Page.after idleStages sampleLevel false [Event.load 0 AssetKind.spriteSheet 0]).assets
      = [{ spriteSheet := true, marioSprite := false, tileset := false }] := by
  unfold Page.after
  rw [init_fresh]
  simp only [List.foldl_cons, List.foldl_nil, Page.step, List.get?, Assets.loaded]
  simp only [Bool.false_eq_true, if_false, List.set, Assets.markLoaded]
  refine ⟨?_, ?_, rfl⟩
  · rw [(spriteSheetLoad_sample _ 0 rfl).1]
  · rw [(spriteSheetLoad_sample _ 0 rfl).2]
    rfl

theorem step_spriteSheet (p : Page) (i : ℕ) (now : ℚ) (as : Assets)
    (h : p.assets.get? i = some as) (hl : as.spriteSheet = false)
    (hg : p.game.frameInterval = Game.constructor.frameInterval) :
    (Page.step idleStages sampleLevel p (Event.load i AssetKind.spriteSheet now)).loops
        = p.loops ++ [initialData sampleLevel] ∧
    (Page.step idleStages sampleLevel p (Event.load i AssetKind.spriteSheet now)).game
        = { p.game with gameLoopRunning := true, lastFrameTime := now } ∧
    (Page.step idleStages sampleLevel p (Event.load i AssetKind.spriteSheet now)).assets
        = p.assets.set i (as.markLoaded AssetKind.spriteSheet) := by
  have hstep : Page.step idleStages sampleLevel p (Event.load i AssetKind.spriteSheet now)
      = spriteSheetLoad idleStages sampleLevel
          { p with assets := p.assets.set i (as.markLoaded AssetKind.spriteSheet) } now := by
    simp only [Page.step, h, Assets.loaded, hl]
    rfl
  rw [hstep]
  exact ⟨(spriteSheetLoad_sample _ now hg).2, (spriteSheetLoad_sample _ now hg).1, rfl⟩

/-- C6 (evaluation at the failing inputs).  First: on the page where `init`
and the load of the sprite sheet (at time 0) have started the loop,
`gameLoopRunning` is true and one loop is attached; a further `run` on the
same world state at time 100 moves `lastFrameTime` from 0 to 100 and attaches
a second loop.  Second: `init` called twice before any image has loaded passes
the guard both times (the flag is still false), scales the canvas by 9 and
creates two sprite sheets with a load handler each; when both have loaded, two
loops are attached to one `Game`. -/
theorem run_again_attaches_second_loop :
    (Page.after idleStages sampleLevel false
      [Event.load 0 AssetKind.spriteSheet 0]).game.gameLoopRunning = true ∧
    (Page.after idleStages sampleLevel false
      [Event.load 0 AssetKind.spriteSheet 0]).loops = [initialData sampleLevel] ∧
    (Page.after idleStages sampleLevel false
      [Event.load 0 AssetKind.spriteSheet 0]).game.lastFrameTime = 0 ∧
    (Page.run idleStages
      (Page.after idleStages sampleLevel false [Event.load 0 AssetKind.spriteSheet 0])
      (initialData sampleLevel) 100).game.lastFrameTime = 100 ∧
    (Page.run idleStages
      (Page.after idleStages sampleLevel false [Event.load 0 AssetKind.spriteSheet 0])
      (initialData sampleLevel) 100).loops
        = [initialData sampleLevel, initialData sampleLevel] ∧
    (Game.init (Game.init (Page.fresh false))).game.gameLoopRunning = false ∧
    (Game.init (Game.init (Page.fresh false))).assets.length = 2 ∧
    (Game.init (Game.init (Page.fresh false))).ctxScale = 9 ∧
    (List.foldl (Page.step idleStages sampleLevel) (Game.init (Game.init (Page.fresh false)))
      [Event.load 0 AssetKind.spriteSheet 0, Event.load 1 AssetKind.spriteSheet 5]).loops
        = [initialData sampleLevel, initialData sampleLevel] := by
  obtain ⟨hg, hl, _⟩ := after_spriteSheet
  have hfi : (Page.after idleStages sampleLevel false
      [Event.load 0 AssetKind.spriteSheet 0]).game.frameInterval
      = Game.constructor.frameInterval := by rw [hg]
  refine ⟨by rw [hg], hl, by rw [hg], ?_, ?_, ?_, ?_, ?_, ?_⟩
  · rw [(pageRun_sample _ 100 hfi).1]
  · rw [(pageRun_sample _ 100 hfi).2, hl]
    rfl
  · rw [init_init_fresh]; rfl
  · rw [init_init_fresh]; rfl
  · rw [init_init_fresh]; norm_num
  · rw [init_init_fresh]
    simp only [List.foldl_cons, List.foldl_nil]
    obtain ⟨hl1, hg1, ha1⟩ := step_spriteSheet
      { game := { Game.constructor with muted := some false }
        mobileBlocked := false
        ctxScale := 1 * 3 * 3
        interactionListeners := 0 + 3 + 3
        muteListeners := 0 + 1 + 1
        assets := [{ spriteSheet := false, marioSprite := false, tileset := false },
          { spriteSheet := false, marioSprite := false, tileset := false }]
        loops := []
        calls := [] } 0 0 { spriteSheet := false, marioSprite := false, tileset := false }
      rfl rfl rfl
    obtain ⟨hl2, _, _⟩ := step_spriteSheet _ 1 5
      { spriteSheet := false, marioSprite := false, tileset := false }
      (by rw [ha1]; rfl) rfl (by rw [hg1])
    rw [hl2, hl1]
    rfl

/-- C7 (evaluation at the failing input): after `init` and the load of the
sprite sheet alone, the frame loop has been started although neither the Mario
sprite nor the tileset has signalled `load`. -/
theorem loop_started_before_all_assets :
    (Page.after idleStages sampleLevel false
      [Event.load 0 AssetKind.spriteSheet 0]).game.gameLoopRunning = true ∧
    (Page.after idleStages sampleLevel false [Event.load 0 AssetKind.spriteSheet 0]).loops ≠ [] ∧
    (Page.after idleStages sampleLevel false [Event.load 0 AssetKind.spriteSheet 0]).assets
      = [{ spriteSheet := true, marioSprite := false, tileset := false }] := by
  obtain ⟨hg, hl, ha⟩ := after_spriteSheet
  refine ⟨by rw [hg], by rw [hl]; simp, ha⟩

end SuperJihadoo
